import Mathlib

/-!
# Delivery-service statistics (`deliveryservicedata/stat.go`)

A shallow embedding of the statistics model of the traffic monitor:
the timestamped scalars, the cache-level aggregate `StatCacheStats` with its
combination operator `Sum`, the common/health aggregate `StatCommon` and the
composite snapshot `Stat`, whose maps are Go maps, that is references into a
heap of map objects.

Go's `int64` is a bounded integer with wrapping addition (`I64`), Go's
`float64` is IEEE 754 binary64 with round-to-nearest-even addition (`F64`).

The dispatch of the division handler (`api/division.go`) follows in the
namespace `api`.
-/

namespace deliveryservicedata

/-! ## Go's `int64` -/

/-- Two's-complement wrap of an integer into the range of `int64`. -/
def wrap64 (x : Int) : Int :=
  (x + 9223372036854775808) % 18446744073709551616 - 9223372036854775808

/-- A value of Go's `int64`: an integer in `[-2^63, 2^63 - 1]`. -/
structure I64 where
  val : Int
  inRange : -9223372036854775808 ≤ val ∧ val ≤ 9223372036854775807
deriving DecidableEq

namespace I64

/-- The `int64` that an integer wraps to (the integer itself when in range). -/
def ofInt (x : Int) : I64 := ⟨wrap64 x, by unfold wrap64; omega⟩

/-- The zero value of `int64`. -/
def zero : I64 := ⟨0, by decide⟩

/-- Go's `+` on `int64`: the sum wrapped around on overflow. -/
def add (a b : I64) : I64 := ⟨wrap64 (a.val + b.val), by unfold wrap64; omega⟩

instance : Inhabited I64 := ⟨zero⟩

end I64

/-! ## Go's `float64` -/

/-- A value of Go's `float64` (IEEE 754 binary64): `fin neg e m` has sign `neg`,
biased exponent `e` (`0` for zero and the subnormals) and fraction `m`. The
one constructor `nan` stands for every NaN: payloads are not modelled, so that
two results are `nan` says that both are NaNs, not that they have the same
bits, and Go's `==` (`F64.eq`) reports any two NaNs as unequal. -/
inductive F64 where
  | nan : F64
  | inf (neg : Bool) : F64
  | fin (neg : Bool) (e : Fin 2047) (m : Fin 4503599627370496) : F64
deriving DecidableEq

namespace F64

/-- Magnitude of a finite value, in units of `2^(-1074)`. -/
def mag (e : Fin 2047) (m : Fin 4503599627370496) : Nat :=
  if e.val = 0 then m.val else (4503599627370496 + m.val) <<< (e.val - 1)

/-- Signed value of a finite number, in units of `2^(-1074)`. -/
def toInt (neg : Bool) (e : Fin 2047) (m : Fin 4503599627370496) : Int :=
  if neg then -((mag e m : Nat) : Int) else ((mag e m : Nat) : Int)

/-- The finite value with the given biased exponent and fraction, or an
infinity once the exponent leaves the finite range. -/
def pack (neg : Bool) (e m : Nat) : F64 :=
  if h : e < 2047 then
    fin neg ⟨e, h⟩ ⟨m % 4503599627370496, Nat.mod_lt _ (by decide)⟩
  else inf neg

/-- Binary search for the position of the highest set bit of `n`: with
`2^t ≤ n < 2^(t + 2^j)`, the position lies in `[t, t + 2^j)`. -/
def search (n : Nat) : Nat → Nat → Nat
  | 0, t => t
  | j + 1, t => search n j (if n >>> (t + 2 ^ j) = 0 then t else t + 2 ^ j)

/-- Position of the highest set bit of `n < 2^4096` (`0` for `n = 0`). -/
def ilog2 (n : Nat) : Nat := search n 12 0

/-- Round-to-nearest, ties-to-even, of an exact magnitude `n` (in units of
`2^(-1074)`): the low `s` bits beyond the 53-bit significand are dropped. -/
def round (neg : Bool) (n : Nat) : F64 :=
  let s := ilog2 n - 52
  let q := n >>> s
  let r := n % (1 <<< s)
  let up : Bool := decide (1 <<< s < 2 * r) || (decide (2 * r = 1 <<< s) && decide (q % 2 = 1))
  let q1 := if up then q + 1 else q
  if q1 < 4503599627370496 then pack neg 0 q1
  else if q1 < 9007199254740992 then pack neg (s + 1) (q1 - 4503599627370496)
  else pack neg (s + 2) 0

/-- Go's `+` on `float64`: the exact sum, rounded to nearest even. -/
def add : F64 → F64 → F64
  | nan, _ => nan
  | _, nan => nan
  | inf a, inf b => if a = b then inf a else nan
  | inf a, fin _ _ _ => inf a
  | fin _ _ _, inf b => inf b
  | fin s1 e1 m1, fin s2 e2 m2 =>
    let z := toInt s1 e1 m1 + toInt s2 e2 m2
    if z = 0 then fin (s1 && s2) 0 0 else round (decide (z < 0)) z.natAbs

/-- The zero value of `float64`, positive zero. -/
def zero : F64 := fin false 0 0

/-- Negative zero. -/
def negZero : F64 := fin true 0 0

instance : Inhabited F64 := ⟨zero⟩

/-- Go's `==` on `float64`: NaN equals nothing, the two zeros are equal. -/
def eq : F64 → F64 → Bool
  | nan, _ => false
  | _, nan => false
  | inf a, inf b => a == b
  | inf _, fin _ _ _ => false
  | fin _ _ _, inf _ => false
  | fin s1 e1 m1, fin s2 e2 m2 => decide (toInt s1 e1 m1 = toInt s2 e2 m2)

/-- The exact value of a finite `float64`, in units of `2^(-1074)`. -/
def units : F64 → Option Int
  | fin s e m => some (toInt s e m)
  | _ => none

end F64

/-! ## Timestamped scalars -/

/-- The `StatMeta` struct: the time a value was last set (a Go `int`). -/
structure StatMeta where
  Time : Int := 0
deriving DecidableEq

/-- The `StatFloat` struct. -/
structure StatFloat extends StatMeta where
  Value : F64 := F64.zero
deriving DecidableEq

/-- The `StatBool` struct. -/
structure StatBool extends StatMeta where
  Value : Bool := false
deriving DecidableEq

/-- The `StatInt` struct. -/
structure StatInt extends StatMeta where
  Value : I64 := I64.zero
deriving DecidableEq

/-- The `StatString` struct. -/
structure StatString extends StatMeta where
  Value : String := ""
deriving DecidableEq

/-! ## The cache-level aggregate -/

/-- The `StatCacheStats` struct; every field defaults to Go's zero value. -/
structure StatCacheStats where
  OutBytes : StatInt := {}
  IsAvailable : StatBool := {}
  Status5xx : StatInt := {}
  Status4xx : StatInt := {}
  Status3xx : StatInt := {}
  Status2xx : StatInt := {}
  InBytes : StatFloat := {}
  Kbps : StatFloat := {}
  Tps5xx : StatInt := {}
  Tps4xx : StatInt := {}
  Tps3xx : StatInt := {}
  Tps2xx : StatInt := {}
  ErrorString : StatString := {}
  TpsTotal : StatInt := {}
deriving DecidableEq

instance : Inhabited StatCacheStats := ⟨{}⟩

/-- The method `func (a StatCacheStats) Sum(b StatCacheStats) StatCacheStats`.
The composite literals leave every `Time` at its zero value. -/
def StatCacheStats.Sum (a b : StatCacheStats) : StatCacheStats :=
  { OutBytes := { Value := I64.add a.OutBytes.Value b.OutBytes.Value }
    IsAvailable := { Value := a.IsAvailable.Value || b.IsAvailable.Value }
    Status5xx := { Value := I64.add a.Status5xx.Value b.Status5xx.Value }
    Status4xx := { Value := I64.add a.Status4xx.Value b.Status4xx.Value }
    Status3xx := { Value := I64.add a.Status3xx.Value b.Status3xx.Value }
    Status2xx := { Value := I64.add a.Status2xx.Value b.Status2xx.Value }
    InBytes := { Value := F64.add a.InBytes.Value b.InBytes.Value }
    Kbps := { Value := F64.add a.Kbps.Value b.Kbps.Value }
    Tps5xx := { Value := I64.add a.Tps5xx.Value b.Tps5xx.Value }
    Tps4xx := { Value := I64.add a.Tps4xx.Value b.Tps4xx.Value }
    Tps3xx := { Value := I64.add a.Tps3xx.Value b.Tps3xx.Value }
    Tps2xx := { Value := I64.add a.Tps2xx.Value b.Tps2xx.Value }
    ErrorString := { Value := a.ErrorString.Value ++ b.ErrorString.Value }
    TpsTotal := { Value := I64.add a.TpsTotal.Value b.TpsTotal.Value } }

/-! ## Go maps and the heap of map objects -/

/-- Modelled from the spec: the package `enum` is not among the sources; the
spec calls its `CacheName` a stable cache name, a cache identifier. Only
equality of keys is used. -/
abbrev enum.CacheName := String

/-- Modelled from the spec: the package `enum` is not among the sources; the
spec calls its `CacheGroupName` a cache-group identifier. -/
abbrev enum.CacheGroupName := String

/-- Modelled from the spec: the package `enum` is not among the sources; the
spec calls its `CacheType` a cache-type identifier. -/
abbrev enum.CacheType := String

/-- The contents of one Go map object: finitely many entries with distinct
keys. The order of the entries stands for the (unspecified) order in which
`range` visits them. -/
abbrev GoMap (V : Type) := AList (fun _ : String => V)

/-- A Go map value: `none` is the nil map, `some p` the map object at
address `p`. Copying a map value copies the reference, not the object. -/
abbrev MapRef := Option Nat

/-- The map objects of one Go map type, by address. -/
abbrev Store (V : Type) := Nat → GoMap V

namespace Store

/-- The entries of the map a reference denotes; a nil map has none. -/
def contents {V : Type} (st : Store V) : MapRef → GoMap V
  | none => ∅
  | some p => st p

/-- The Go expression `v, ok := m[k]`: the zero value and `false` when the
key is absent, also on a nil map. -/
def get {V : Type} [Inhabited V] (st : Store V) (m : MapRef) (k : String) : V × Bool :=
  match (st.contents m).lookup k with
  | some v => (v, true)
  | none => (default, false)

/-- The Go statement `m[k] = v`; it panics (`none`) on a nil map. -/
def set {V : Type} (st : Store V) (m : MapRef) (k : String) (v : V) : Option (Store V) :=
  match m with
  | none => none
  | some p => some (fun q => if q = p then (st p).insert k v else st q)

/-- The Go statement `delete(m, k)`; a no-op on a nil map. -/
def delete {V : Type} (st : Store V) (m : MapRef) (k : String) : Store V :=
  match m with
  | none => st
  | some p => fun q => if q = p then (st p).erase k else st q

/-- The entries `for k, v := range m` visits. -/
def range {V : Type} (st : Store V) (m : MapRef) : List (String × V) :=
  (st.contents m).entries.map (fun e => (e.1, e.2))

/-- The loop `for k, v := range src { dst[k] = v }`. The loops of this file only
assign keys, never delete, so the entries visited are those present at
the start. -/
def copyInto {V : Type} (st : Store V) (src dst : MapRef) : Option (Store V) :=
  (st.range src).foldlM (fun st1 kv => st1.set dst kv.1 kv.2) st

end Store

/-- The heap: the map objects of the three map types of this package, and the
first unused address. -/
structure Heap where
  reporting : Store Bool
  cacheGroups : Store StatCacheStats
  types : Store StatCacheStats
  nextAddr : Nat

/-- The heap with no map object allocated. -/
def Heap.empty : Heap :=
  { reporting := fun _ => ∅, cacheGroups := fun _ => ∅, types := fun _ => ∅, nextAddr := 0 }

/-! ## The common/health aggregate -/

/-- The `StatCommon` struct; `CachesReporting` is a map, held by reference. -/
structure StatCommon where
  CachesConfiguredNum : StatInt := {}
  CachesReporting : MapRef := none
  ErrorStr : StatString := {}
  StatusStr : StatString := {}
  IsHealthy : StatBool := {}
  IsAvailable : StatBool := {}
  CachesAvailableNum : StatInt := {}
deriving DecidableEq

namespace StatCommon

/-- The method `func (a StatCommon) Copy() StatCommon`: `b := a` copies the
struct, and with it the reference to the reporting map; the loop then assigns
every entry of `a.CachesReporting` to `b.CachesReporting`. -/
def Copy (a : StatCommon) (h : Heap) : Option (StatCommon × Heap) :=
  let b := a
  match h.reporting.copyInto a.CachesReporting b.CachesReporting with
  | none => none
  | some r => some (b, { h with reporting := r })

/-- The method `CachesConfigured`. -/
def CachesConfigured (a : StatCommon) : StatInt := a.CachesConfiguredNum

/-- The method `CacheReporting`. -/
def CacheReporting (a : StatCommon) (h : Heap) (name : enum.CacheName) : Bool × Bool :=
  h.reporting.get a.CachesReporting name

/-- The method `CachesReportingNames`. -/
def CachesReportingNames (a : StatCommon) (h : Heap) : List enum.CacheName :=
  (h.reporting.range a.CachesReporting).foldl (fun names kv => names ++ [kv.1]) []

/-- The method `Error`. -/
def Error (a : StatCommon) : StatString := a.ErrorStr

/-- The method `Status`. -/
def Status (a : StatCommon) : StatString := a.StatusStr

/-- The method `Healthy`. -/
def Healthy (a : StatCommon) : StatBool := a.IsHealthy

/-- The method `Available`. -/
def Available (a : StatCommon) : StatBool := a.IsAvailable

/-- The method `CachesAvailable`. -/
def CachesAvailable (a : StatCommon) : StatInt := a.CachesAvailableNum

end StatCommon

/-! ## The composite snapshot -/

/-- The `Stat` struct; `CacheGroups` and `Types` are maps, held by reference. -/
structure Stat where
  CommonStats : StatCommon := {}
  CacheGroups : MapRef := none
  Types : MapRef := none
  TotalStats : StatCacheStats := {}
deriving DecidableEq

/-- The function `NewStat`: three fresh empty maps, everything else zero. The Go
function returns a pointer to the new struct; the struct itself is returned
here. -/
def NewStat (h : Heap) : Stat × Heap :=
  ({ CacheGroups := some h.nextAddr, Types := some (h.nextAddr + 1),
     CommonStats := { CachesReporting := some (h.nextAddr + 2) } },
   { reporting := fun q => if q = h.nextAddr + 2 then ∅ else h.reporting q
     cacheGroups := fun q => if q = h.nextAddr then ∅ else h.cacheGroups q
     types := fun q => if q = h.nextAddr + 1 then ∅ else h.types q
     nextAddr := h.nextAddr + 3 })

namespace Stat

/-- The method `func (a Stat) Copy() Stat`: the common aggregate is copied with
`StatCommon.Copy`, the total by value, and two fresh maps receive the entries
of `a.CacheGroups` and of `a.Types`. -/
def Copy (a : Stat) (h : Heap) : Option (Stat × Heap) :=
  match a.CommonStats.Copy h with
  | none => none
  | some (common, h1) =>
    let b : Stat :=
      { CommonStats := common, TotalStats := a.TotalStats,
        CacheGroups := some h1.nextAddr, Types := some (h1.nextAddr + 1) }
    let h2 : Heap :=
      { h1 with
        cacheGroups := fun q => if q = h1.nextAddr then ∅ else h1.cacheGroups q
        types := fun q => if q = h1.nextAddr + 1 then ∅ else h1.types q
        nextAddr := h1.nextAddr + 2 }
    match h2.cacheGroups.copyInto a.CacheGroups b.CacheGroups with
    | none => none
    | some g =>
      match h2.types.copyInto a.Types b.Types with
      | none => none
      | some t => some (b, { h2 with cacheGroups := g, types := t })

/-- The method `Common`: the common aggregate, by value. -/
def Common (a : Stat) : StatCommon := a.CommonStats

/-- The method `CacheGroup`. -/
def CacheGroup (a : Stat) (h : Heap) (name : enum.CacheGroupName) : StatCacheStats × Bool :=
  h.cacheGroups.get a.CacheGroups name

/-- The method `Type` (primed, `Type` being a keyword). -/
def Type' (a : Stat) (h : Heap) (name : enum.CacheType) : StatCacheStats × Bool :=
  h.types.get a.Types name

/-- The method `Total`. -/
def Total (a : Stat) : StatCacheStats := a.TotalStats

end Stat

/-! ## Go statements on the maps of a value, and sample states -/

/-- A map value that lives in the heap: nil, or an address already allocated. -/
def MapRef.allocated (m : MapRef) (h : Heap) : Bool :=
  match m with
  | none => true
  | some p => decide (p < h.nextAddr)

/-- A snapshot all of whose maps live in the heap. -/
def Stat.allocated (a : Stat) (h : Heap) : Bool :=
  MapRef.allocated a.CommonStats.CachesReporting h && MapRef.allocated a.CacheGroups h
    && MapRef.allocated a.Types h

namespace Heap

/-- The Go statement `m[k] = v` on a reporting map (`map[enum.CacheName]bool`). -/
def setReporting (h : Heap) (m : MapRef) (k : enum.CacheName) (v : Bool) : Option Heap :=
  match h.reporting.set m k v with
  | none => none
  | some r => some { h with reporting := r }

/-- The Go statement `delete(m, k)` on a reporting map. -/
def deleteReporting (h : Heap) (m : MapRef) (k : enum.CacheName) : Heap :=
  { h with reporting := h.reporting.delete m k }

end Heap

/-- The Go statements `d := c.Copy(); d.CachesReporting[k] = v`: the heap they
leave. -/
def StatCommon.copyThenAssign (c : StatCommon) (h : Heap) (k : enum.CacheName) (v : Bool) :
    Option Heap :=
  match c.Copy h with
  | none => none
  | some (d, h1) => h1.setReporting d.CachesReporting k v

/-- The Go statements `d := c.Copy(); delete(d.CachesReporting, k)`: the heap
they leave. -/
def StatCommon.copyThenDelete (c : StatCommon) (h : Heap) (k : enum.CacheName) : Option Heap :=
  match c.Copy h with
  | none => none
  | some (d, h1) => some (h1.deleteReporting d.CachesReporting k)

/-- The Go statements `t := s.Copy(); t.CommonStats.CachesReporting[k] = v`:
the heap they leave. -/
def Stat.copyThenAssignReporting (s : Stat) (h : Heap) (k : enum.CacheName) (v : Bool) :
    Option Heap :=
  match s.Copy h with
  | none => none
  | some (t, h1) => h1.setReporting t.CommonStats.CachesReporting k v

/-- A heap with one reporting map, at address 0, holding `"a": true`. -/
def heapA : Heap :=
  { Heap.empty with
    reporting := fun q => if q = 0 then AList.insert "a" true ∅ else ∅
    nextAddr := 1 }

/-- A common aggregate whose reporting map is the one of `heapA`. -/
def commonA : StatCommon := { CachesReporting := some 0 }

/-! ## Views and sample values used by the statements -/

/-- The values of the ten integer counters of an aggregate, in the order of
the struct's fields. -/
def StatCacheStats.counters (a : StatCacheStats) : List I64 :=
  [a.OutBytes.Value, a.Status5xx.Value, a.Status4xx.Value, a.Status3xx.Value,
   a.Status2xx.Value, a.Tps5xx.Value, a.Tps4xx.Value, a.Tps3xx.Value, a.Tps2xx.Value,
   a.TpsTotal.Value]

/-- The values of the two rates of an aggregate, `InBytes` and `Kbps`. -/
def StatCacheStats.rates (a : StatCacheStats) : List F64 :=
  [a.InBytes.Value, a.Kbps.Value]

/-- The integer counters and the availability flag of an aggregate: what the
folds are compared on. -/
def StatCacheStats.tally (a : StatCacheStats) : List I64 × Bool :=
  (a.counters, a.IsAvailable.Value)

/-- The exact (unrounded) sum of two finite `float64` values, in units of
`2^(-1074)`. -/
def F64.exactSum (x y : F64) : Option Int :=
  match x.units, y.units with
  | some u, some v => some (u + v)
  | _, _ => none

/-- The `float64` value `1.0`. -/
def F64.one : F64 := F64.fin false 1023 0

/-- The `float64` value `9007199254740992.0`, that is `2^53`. -/
def F64.twoPow53 : F64 := F64.fin false 1076 0

/-- The largest `int64`, `math.MaxInt64`. -/
def I64.max : I64 := ⟨9223372036854775807, by decide⟩

/-- The scenario of the specification: `{Status2xx: 100, IsAvailable: true}`. -/
def scenarioA : StatCacheStats :=
  { Status2xx := { Value := I64.ofInt 100 }, IsAvailable := { Value := true } }

/-- The scenario of the specification: `{Status2xx: 50, IsAvailable: false}`. -/
def scenarioB : StatCacheStats :=
  { Status2xx := { Value := I64.ofInt 50 }, IsAvailable := { Value := false } }

/-- An aggregate at the limits: `{OutBytes: math.MaxInt64, Kbps: 2^53}`. -/
def limitA : StatCacheStats :=
  { OutBytes := { Value := I64.max }, Kbps := { Value := F64.twoPow53 } }

/-- An aggregate of ones: `{OutBytes: 1, Kbps: 1.0}`. -/
def unitB : StatCacheStats :=
  { OutBytes := { Value := I64.ofInt 1 }, Kbps := { Value := F64.one } }

/-- An aggregate whose bitrate is negative zero: `{Kbps: -0.0}`. -/
def negZeroRate : StatCacheStats := { Kbps := { Value := F64.negZero } }

/-- An aggregate whose bitrate is not a number: `{Kbps: NaN}`. -/
def nanRate : StatCacheStats := { Kbps := { Value := F64.nan } }

/-- An aggregate whose bitrate is positive infinity: `{Kbps: +Inf}`. -/
def posInfRate : StatCacheStats := { Kbps := { Value := F64.inf false } }

/-- An aggregate whose bitrate is negative infinity: `{Kbps: -Inf}`. -/
def negInfRate : StatCacheStats := { Kbps := { Value := F64.inf true } }

/-- A heap holding the maps of `statA`: a reporting map with `"a": true`, a
cache-group map with `"g": scenarioA`, and no cache-type map. -/
def heapS : Heap :=
  { heapA with
    cacheGroups := fun q => if q = 1 then AList.insert "g" scenarioA ∅ else ∅
    nextAddr := 2 }

/-- A snapshot with a reporting map, a cache-group map and a nil cache-type
map. -/
def statA : Stat :=
  { CommonStats := commonA, CacheGroups := some 1, Types := none, TotalStats := scenarioA }

/-- The integer counter `z` is the `int64` sum of `x` and `y`: their sum
wrapped into the range of `int64`, hence their sum whenever that is in range. -/
def I64.IsSumOf (z x y : I64) : Prop :=
  z.val = wrap64 (x.val + y.val) ∧
  (-9223372036854775808 ≤ x.val + y.val → x.val + y.val ≤ 9223372036854775807 →
    z.val = x.val + y.val)

namespace Heap

/-- The Go statement `m[k] = v` on a cache-group map
(`map[enum.CacheGroupName]StatCacheStats`). -/
def setCacheGroup (h : Heap) (m : MapRef) (k : enum.CacheGroupName) (v : StatCacheStats) :
    Option Heap :=
  match h.cacheGroups.set m k v with
  | none => none
  | some g => some { h with cacheGroups := g }

/-- The Go statement `delete(m, k)` on a cache-group map. -/
def deleteCacheGroup (h : Heap) (m : MapRef) (k : enum.CacheGroupName) : Heap :=
  { h with cacheGroups := h.cacheGroups.delete m k }

/-- The Go statement `m[k] = v` on a cache-type map
(`map[enum.CacheType]StatCacheStats`). -/
def setType (h : Heap) (m : MapRef) (k : enum.CacheType) (v : StatCacheStats) : Option Heap :=
  match h.types.set m k v with
  | none => none
  | some t => some { h with types := t }

/-- The Go statement `delete(m, k)` on a cache-type map. -/
def deleteType (h : Heap) (m : MapRef) (k : enum.CacheType) : Heap :=
  { h with types := h.types.delete m k }

end Heap

/-- The invariant of the common aggregate: `CachesAvailable ≤ CachesConfigured`,
on the values of `CachesAvailableNum` and `CachesConfiguredNum`. -/
abbrev StatCommon.availableWithinConfigured (c : StatCommon) : Prop :=
  c.CachesAvailableNum.Value.val ≤ c.CachesConfiguredNum.Value.val

/-- A common aggregate with 2 caches available of 3 configured, on the reporting
map of `heapA`. -/
def commonB : StatCommon :=
  { CachesReporting := some 0
    CachesConfiguredNum := { Value := I64.ofInt 3 }
    CachesAvailableNum := { Value := I64.ofInt 2 } }

/-- The fourteen `Time` fields of an aggregate, in the order of the struct's
fields. -/
def StatCacheStats.times (a : StatCacheStats) : List Int :=
  [a.OutBytes.Time, a.IsAvailable.Time, a.Status5xx.Time, a.Status4xx.Time, a.Status3xx.Time,
   a.Status2xx.Time, a.InBytes.Time, a.Kbps.Time, a.Tps5xx.Time, a.Tps4xx.Time, a.Tps3xx.Time,
   a.Tps2xx.Time, a.ErrorString.Time, a.TpsTotal.Time]

/-- An aggregate that carries a timestamp: `{Status2xx: {Time: 1700000000,
Value: 100}, ErrorString: {Value: "timeout"}}`. -/
def stampedA : StatCacheStats :=
  { Status2xx := { Time := 1700000000, Value := I64.ofInt 100 }
    ErrorString := { Value := "timeout" } }

/-! ## The legacy flattened view and the filter -/

/-- Modelled from the spec: the package `enum` is not among the sources; the
spec calls its `DeliveryServiceName` a delivery-service identifier. -/
abbrev enum.DeliveryServiceName := String

/-- The `Filter` interface: the three predicates a filter supplies. -/
structure Filter where
  UseStat : String → Bool
  UseDeliveryService : enum.DeliveryServiceName → Bool
  WithinStatHistoryMax : Int → Bool

/-- The type `StatName`. -/
abbrev StatName := String

/-- The `StatOld` struct: one sample of the legacy view. -/
structure StatOld where
  Time : I64 := I64.zero
  Value : String := ""
  Span : Int := 0
  Index : Int := 0
deriving DecidableEq

/-- The `StatsOld` struct: delivery service to stat name to samples. The maps of
a `StatsOld` are built for it and owned by it, so they are held by value. -/
structure StatsOld where
  DeliveryService : GoMap (GoMap (List StatOld)) := ∅

/-- Modelled from the spec: the implementation of `StatsReadonly.JSON` is not
among the sources. Of a sample sequence the flattening keeps the samples whose
index the filter reports as within the requested history depth
(`WithinStatHistoryMax`). -/
def withinHistory (filter : Filter) (samples : List StatOld) : List StatOld :=
  (samples.enum.filter (fun p => filter.WithinStatHistoryMax (p.1 : Int))).map Prod.snd

/-- Modelled from the spec: the implementation of `StatsReadonly.JSON` is not
among the sources. Of the named stats of one delivery service the flattening
emits those whose name the filter accepts (`UseStat`), each with its samples
within the history depth; a stat the filter rejects is absent. -/
def flattenStats (filter : Filter) (named : List (StatName × List StatOld)) :
    GoMap (List StatOld) :=
  named.foldl
    (fun out st => if filter.UseStat st.1 then out.insert st.1 (withinHistory filter st.2) else out)
    ∅

/-- Modelled from the spec: the implementation of `StatsReadonly.JSON` is not
among the sources. The flattening walks the snapshots, given here as the
delivery services with the named stats of each, applies the three predicates
of the filter and emits the legacy shape; a delivery service the filter
rejects (`UseDeliveryService`) is absent. -/
def StatsJSON (stats : List (enum.DeliveryServiceName × List (StatName × List StatOld)))
    (filter : Filter) : StatsOld :=
  { DeliveryService := stats.foldl
      (fun out ds =>
        if filter.UseDeliveryService ds.1 then out.insert ds.1 (flattenStats filter ds.2)
        else out)
      ∅ }

/-- A snapshot set with one delivery service, `"ds1"`, whose stats are `"kbps"`
and `"errors"`, with one sample each. -/
def kbpsAndErrors : List (enum.DeliveryServiceName × List (StatName × List StatOld)) :=
  [("ds1", [("kbps", [{ Value := "1200" }]), ("errors", [{ Value := "timeout" }])])]

/-- A filter that rejects the stat `"errors"` and accepts everything else. -/
def noErrors : Filter :=
  { UseStat := fun name => name != "errors"
    UseDeliveryService := fun _ => true
    WithinStatHistoryMax := fun _ => true }

end deliveryservicedata

/-! # The division handler (`api/division.go`) -/

namespace api

/-- A byte slice, `[]byte`. -/
abbrev Bytes := List (Fin 256)

/-- What a call comes to: a panic, or the two results, an `interface{}` and an
`error` (nil is `none`), with the store the call leaves. The type `W` stands
for the store behind `db.GlobalDB` together with the standard output, `R` for
the non-nil results and `E` for the non-nil errors. -/
inductive Outcome (W R E : Type) where
  | panic : Outcome W R E
  | ret (result : Option R) (err : Option E) (store : W) : Outcome W R E
deriving DecidableEq

/-- The four handlers `handleDivision` dispatches to. The functions
`getDivision`, `postDivision`, `putDivision` and `delDivision` run SQL through
the package `db`, which is not among the sources, so they are parameters: any
functions of their Go arguments and the store. -/
structure Handlers (W R E : Type) where
  getDivision : Int → W → Outcome W R E
  postDivision : Bytes → W → Outcome W R E
  putDivision : Int → Bytes → W → Outcome W R E
  delDivision : Int → W → Outcome W R E

/-- The function `handleDivision`. -/
def handleDivision {W R E : Type} (hs : Handlers W R E) (method : String) (id : Int)
    (payload : Bytes) (w : W) : Outcome W R E :=
  if method = "GET" then hs.getDivision id w
  else if method = "POST" then hs.postDivision payload w
  else if method = "PUT" then hs.putDivision id payload w
  else if method = "DELETE" then hs.delDivision id w
  else Outcome.ret none none w

/-- A call of a handler, as recorded by the handlers `recording`. -/
inductive Call where
  | get (id : Int) : Call
  | post (payload : Bytes) : Call
  | put (id : Int) (payload : Bytes) : Call
  | del (id : Int) : Call
deriving DecidableEq

/-- Handlers that return a non-nil result and append their call to the store,
which is the list of the calls made. -/
def recording : Handlers (List Call) Unit Unit :=
  { getDivision := fun id w => Outcome.ret (some ()) none (w ++ [Call.get id])
    postDivision := fun payload w => Outcome.ret (some ()) none (w ++ [Call.post payload])
    putDivision := fun id payload w => Outcome.ret (some ()) none (w ++ [Call.put id payload])
    delDivision := fun id w => Outcome.ret (some ()) none (w ++ [Call.del id]) }

end api

namespace deliveryservicedata

/-! ## Arithmetic of `int64` and `float64` -/

theorem wrap64_of_inRange (x : Int)
    (h : -9223372036854775808 ≤ x ∧ x ≤ 9223372036854775807) : wrap64 x = x := by
  unfold wrap64
  omega

theorem i64_add_comm (a b : I64) : I64.add a b = I64.add b a := by
  simp [I64.add, Int.add_comm]

theorem i64_add_assoc (a b c : I64) : I64.add (I64.add a b) c = I64.add a (I64.add b c) := by
  simp only [I64.add, I64.mk.injEq]
  unfold wrap64
  omega

theorem i64_add_zero (a : I64) : I64.add a I64.zero = a := by
  obtain ⟨v, hv⟩ := a
  simp only [I64.add, I64.zero, I64.mk.injEq]
  unfold wrap64
  omega

theorem i64_zero_add (a : I64) : I64.add I64.zero a = a := by
  rw [i64_add_comm, i64_add_zero]

theorem f64_add_comm (x y : F64) : F64.add x y = F64.add y x := by
  cases x <;> cases y <;> simp [F64.add, Int.add_comm, Bool.and_comm]
  case inf.inf a b => cases a <;> cases b <;> simp

theorem f64_search_spec (n : Nat) : ∀ (j t : Nat), 2 ^ t ≤ n → n < 2 ^ (t + 2 ^ j) →
    2 ^ (F64.search n j t) ≤ n ∧ n < 2 ^ (F64.search n j t + 1)
  | 0, t, h1, h2 => by simpa [F64.search] using ⟨h1, h2⟩
  | j + 1, t, h1, h2 => by
    unfold F64.search
    by_cases hz : n >>> (t + 2 ^ j) = 0
    · rw [if_pos hz]
      refine f64_search_spec n j t h1 ?_
      rw [Nat.shiftRight_eq_div_pow] at hz
      exact (Nat.div_eq_zero_iff (by positivity)).1 hz
    · rw [if_neg hz]
      refine f64_search_spec n j (t + 2 ^ j) ?_ ?_
      · rw [Nat.shiftRight_eq_div_pow] at hz
        have := (Nat.div_eq_zero_iff (b := 2 ^ (t + 2 ^ j)) (a := n) (by positivity)).not.1 hz
        omega
      · have : t + 2 ^ j + 2 ^ j = t + 2 ^ (j + 1) := by rw [pow_succ]; omega
        rw [this]; exact h2

theorem f64_ilog2_eq (n k : Nat) (h1 : 2 ^ k ≤ n) (h2 : n < 2 ^ (k + 1)) (hk : k < 4096) :
    F64.ilog2 n = k := by
  have hn : n < 2 ^ (0 + 2 ^ 12) := by
    calc n < 2 ^ (k + 1) := h2
      _ ≤ 2 ^ (0 + 2 ^ 12) := Nat.pow_le_pow_right (by decide) (by omega)
  have hpos : 2 ^ 0 ≤ n := le_trans (Nat.one_le_two_pow) h1
  obtain ⟨a, b⟩ := f64_search_spec n 12 0 hpos hn
  unfold F64.ilog2
  have h3 : 2 ^ (F64.search n 12 0) < 2 ^ (k + 1) := lt_of_le_of_lt a h2
  have h4 : 2 ^ k < 2 ^ (F64.search n 12 0 + 1) := lt_of_le_of_lt h1 b
  have h5 := (Nat.pow_lt_pow_iff_right (a := 2) (by decide)).1 h3
  have h6 := (Nat.pow_lt_pow_iff_right (a := 2) (by decide)).1 h4
  omega

theorem f64_round_small (neg : Bool) (n : Nat) (hn : n < 4503599627370496) :
    F64.round neg n = F64.fin neg 0 ⟨n, hn⟩ := by
  have hs : F64.ilog2 n - 52 = 0 := by
    by_cases h0 : n = 0
    · subst h0; decide
    · have hpos : 2 ^ 0 ≤ n := by simpa using Nat.pos_of_ne_zero h0
      have hlt : n < 2 ^ (0 + 2 ^ 12) :=
        lt_of_lt_of_le hn (by norm_num)
      obtain ⟨a, -⟩ := f64_search_spec n 12 0 hpos hlt
      have h3 : 2 ^ (F64.search n 12 0) < 2 ^ 52 := lt_of_le_of_lt a (by simpa using hn)
      have h5 := (Nat.pow_lt_pow_iff_right (a := 2) (by decide)).1 h3
      unfold F64.ilog2
      omega
  unfold F64.round
  simp only [hs, Nat.shiftRight_zero, Nat.shiftLeft_zero, Nat.mod_one]
  simp [hn, F64.pack, Nat.mod_eq_of_lt hn]

theorem f64_round_normal (neg : Bool) (k m : Nat) (hm : m < 4503599627370496) (hk : k + 1 < 2047) :
    F64.round neg ((4503599627370496 + m) <<< k)
      = F64.fin neg ⟨k + 1, hk⟩ ⟨m, hm⟩ := by
  have hlo : 2 ^ (52 + k) ≤ (4503599627370496 + m) <<< k := by
    rw [Nat.shiftLeft_eq, pow_add]
    exact Nat.mul_le_mul_right _ (by omega)
  have hhi : (4503599627370496 + m) <<< k < 2 ^ (52 + k + 1) := by
    rw [Nat.shiftLeft_eq, show 52 + k + 1 = 53 + k by omega, pow_add]
    exact Nat.mul_lt_mul_of_pos_right (by omega) (by positivity)
  have hs : F64.ilog2 ((4503599627370496 + m) <<< k) - 52 = k := by
    rw [f64_ilog2_eq _ (52 + k) hlo hhi (by omega)]; omega
  have hq : ((4503599627370496 + m) <<< k) >>> k = 4503599627370496 + m := by
    rw [Nat.shiftLeft_eq, Nat.shiftRight_eq_div_pow, Nat.mul_div_cancel _ (by positivity)]
  have hr : ((4503599627370496 + m) <<< k) % (1 <<< k) = 0 := by
    rw [Nat.shiftLeft_eq, Nat.shiftLeft_eq, Nat.one_mul, Nat.mul_mod_left]
  have hp : 0 < 1 <<< k := by rw [Nat.shiftLeft_eq]; positivity
  unfold F64.round
  simp only [hs, hq, hr]
  have h1 : ¬ (1 <<< k < 2 * 0) := by omega
  have h2 : ¬ (2 * 0 = 1 <<< k) := by omega
  have h3 : ¬ (4503599627370496 + m < 4503599627370496) := by omega
  have h4 : 4503599627370496 + m < 9007199254740992 := by omega
  simp [h1, h2, h3, h4, F64.pack, hk, Nat.mod_eq_of_lt hm, hp.ne]

theorem f64_round_mag (neg : Bool) (e : Fin 2047) (m : Fin 4503599627370496) :
    F64.round neg (F64.mag e m) = F64.fin neg e m := by
  obtain ⟨e, he⟩ := e
  obtain ⟨m, hm⟩ := m
  unfold F64.mag
  by_cases h0 : e = 0
  · subst h0
    simp only [↓reduceIte]
    exact f64_round_small neg m hm
  · obtain ⟨k, rfl⟩ : ∃ k, e = k + 1 := ⟨e - 1, by omega⟩
    simp only [Nat.add_one_ne_zero, ↓reduceIte, Nat.add_sub_cancel]
    exact f64_round_normal neg k m hm he

theorem f64_mag_eq_zero (e : Fin 2047) (m : Fin 4503599627370496) (h : F64.mag e m = 0) :
    e = 0 ∧ m = 0 := by
  obtain ⟨e, he⟩ := e
  obtain ⟨m, hm⟩ := m
  unfold F64.mag at h
  by_cases h0 : e = 0
  · subst h0
    simp only [↓reduceIte] at h
    subst h
    exact ⟨rfl, rfl⟩
  · simp only [h0, ↓reduceIte, Nat.shiftLeft_eq] at h
    have : 0 < (4503599627370496 + m) * 2 ^ (e - 1) := by positivity
    omega

theorem f64_add_zero (x : F64) (hx : x ≠ F64.negZero) : F64.add x F64.zero = x := by
  cases x with
  | nan => rfl
  | inf a => rfl
  | fin s e m =>
    have hz0 : F64.toInt false 0 0 = 0 := by decide
    simp only [F64.add, F64.zero, hz0, Int.add_zero]
    by_cases hm : F64.mag e m = 0
    · obtain ⟨rfl, rfl⟩ := f64_mag_eq_zero e m hm
      cases s
      · decide
      · exact absurd rfl hx
    · have hpos : 0 < F64.mag e m := Nat.pos_of_ne_zero hm
      cases s
      · have h1 : F64.toInt false e m = (F64.mag e m : Int) := rfl
        have h2 : ¬ ((F64.mag e m : Int) = 0) := by omega
        have h3 : ¬ ((F64.mag e m : Int) < 0) := by omega
        simp only [h1, h2, h3, ↓reduceIte, decide_False, Int.natAbs_ofNat]
        exact f64_round_mag false e m
      · have h1 : F64.toInt true e m = -(F64.mag e m : Int) := rfl
        have h2 : ¬ (-(F64.mag e m : Int) = 0) := by omega
        have h3 : (-(F64.mag e m : Int) < 0) := by omega
        simp only [h1, h2, h3, ↓reduceIte, decide_True, Int.natAbs_neg, Int.natAbs_ofNat]
        exact f64_round_mag true e m

theorem f64_eq_self (x : F64) (hx : x ≠ F64.nan) : F64.eq x x = true := by
  cases x with
  | nan => exact absurd rfl hx
  | inf a => simp [F64.eq]
  | fin s e m => simp [F64.eq]

theorem f64_eq_add_zero (x : F64) (hx : x ≠ F64.nan) : F64.eq (F64.add x F64.zero) x = true := by
  by_cases hz : x = F64.negZero
  · subst hz; decide
  · rw [f64_add_zero x hz]; exact f64_eq_self x hx

/-! ## The combination operator `Sum` -/

open StatCacheStats

theorem i64_add_isSumOf (x y : I64) : I64.IsSumOf (I64.add x y) x y :=
  ⟨rfl, fun h1 h2 => wrap64_of_inRange _ ⟨h1, h2⟩⟩

/-- C1 (as amended): every integer counter of `Sum(a, b)` is the sum of the two
values wrapped to `int64` (the arithmetic sum itself when that is in range),
the rates `InBytes` and `Kbps` are the `float64` sums, `IsAvailable` is the
disjunction and `ErrorString` is the text of `a` followed by that of `b`. -/
theorem c1_Sum_fieldwise (a b : StatCacheStats) :
    I64.IsSumOf (a.Sum b).OutBytes.Value a.OutBytes.Value b.OutBytes.Value ∧
    I64.IsSumOf (a.Sum b).Status2xx.Value a.Status2xx.Value b.Status2xx.Value ∧
    I64.IsSumOf (a.Sum b).Status3xx.Value a.Status3xx.Value b.Status3xx.Value ∧
    I64.IsSumOf (a.Sum b).Status4xx.Value a.Status4xx.Value b.Status4xx.Value ∧
    I64.IsSumOf (a.Sum b).Status5xx.Value a.Status5xx.Value b.Status5xx.Value ∧
    I64.IsSumOf (a.Sum b).Tps2xx.Value a.Tps2xx.Value b.Tps2xx.Value ∧
    I64.IsSumOf (a.Sum b).Tps3xx.Value a.Tps3xx.Value b.Tps3xx.Value ∧
    I64.IsSumOf (a.Sum b).Tps4xx.Value a.Tps4xx.Value b.Tps4xx.Value ∧
    I64.IsSumOf (a.Sum b).Tps5xx.Value a.Tps5xx.Value b.Tps5xx.Value ∧
    I64.IsSumOf (a.Sum b).TpsTotal.Value a.TpsTotal.Value b.TpsTotal.Value ∧
    (a.Sum b).InBytes.Value = F64.add a.InBytes.Value b.InBytes.Value ∧
    (a.Sum b).Kbps.Value = F64.add a.Kbps.Value b.Kbps.Value ∧
    (a.Sum b).IsAvailable.Value = (a.IsAvailable.Value || b.IsAvailable.Value) ∧
    (a.Sum b).ErrorString.Value = a.ErrorString.Value ++ b.ErrorString.Value :=
  ⟨i64_add_isSumOf _ _, i64_add_isSumOf _ _, i64_add_isSumOf _ _, i64_add_isSumOf _ _,
   i64_add_isSumOf _ _, i64_add_isSumOf _ _, i64_add_isSumOf _ _, i64_add_isSumOf _ _,
   i64_add_isSumOf _ _, i64_add_isSumOf _ _, rfl, rfl, rfl, rfl⟩

/-- C1, the scenario of the specification: with `Status2xx` 100 and 50 the sum
is in range, so `Sum(a, b).Status2xx` is 150, and `IsAvailable` is true. -/
theorem c1_Sum_fieldwise_witness :
    (scenarioA.Sum scenarioB).Status2xx.Value.val = 150 ∧
    (scenarioA.Sum scenarioB).IsAvailable.Value = true :=
  ⟨(c1_Sum_fieldwise scenarioA scenarioB).2.1.2 (by decide) (by decide),
   (c1_Sum_fieldwise scenarioA scenarioB).2.2.2.2.2.2.2.2.2.2.2.2.1⟩

/-- C1 as stated fails: with `OutBytes` of `math.MaxInt64` and 1 the counter
of `Sum(a, b)` is `math.MinInt64`, not the arithmetic sum `2^63`; with `Kbps`
of `2^53` and `1.0` the rate of `Sum(a, b)` is `2^53`, not the arithmetic
sum `2^53 + 1`. -/
theorem c1_Sum_not_arithmetic :
    (limitA.Sum unitB).OutBytes.Value.val = -9223372036854775808 ∧
    (limitA.Sum unitB).OutBytes.Value.val ≠ limitA.OutBytes.Value.val + unitB.OutBytes.Value.val ∧
    (limitA.Sum unitB).Kbps.Value = F64.twoPow53 ∧
    (limitA.Sum unitB).Kbps.Value.units ≠ F64.exactSum limitA.Kbps.Value unitB.Kbps.Value := by
  decide

/-- C4 (as amended): `Sum` is commutative on the ten integer counters and on the
flag `IsAvailable`; on each of the two rates `InBytes` and `Kbps`, the rate of
`Sum(a, b)` is NaN exactly when that of `Sum(b, a)` is, and when it is not NaN
the two are the same `float64` value and Go's `==` holds between them. -/
theorem c4_Sum_comm (a b : StatCacheStats) :
    (a.Sum b).counters = (b.Sum a).counters ∧
    (a.Sum b).IsAvailable.Value = (b.Sum a).IsAvailable.Value ∧
    ((a.Sum b).InBytes.Value = F64.nan ↔ (b.Sum a).InBytes.Value = F64.nan) ∧
    ((a.Sum b).InBytes.Value ≠ F64.nan →
      (a.Sum b).InBytes.Value = (b.Sum a).InBytes.Value ∧
      F64.eq (a.Sum b).InBytes.Value (b.Sum a).InBytes.Value = true) ∧
    ((a.Sum b).Kbps.Value = F64.nan ↔ (b.Sum a).Kbps.Value = F64.nan) ∧
    ((a.Sum b).Kbps.Value ≠ F64.nan →
      (a.Sum b).Kbps.Value = (b.Sum a).Kbps.Value ∧
      F64.eq (a.Sum b).Kbps.Value (b.Sum a).Kbps.Value = true) := by
  have hin : (a.Sum b).InBytes.Value = (b.Sum a).InBytes.Value :=
    f64_add_comm a.InBytes.Value b.InBytes.Value
  have hkb : (a.Sum b).Kbps.Value = (b.Sum a).Kbps.Value :=
    f64_add_comm a.Kbps.Value b.Kbps.Value
  refine ⟨?_, ?_, by rw [hin], ?_, by rw [hkb], ?_⟩
  · simp only [counters, StatCacheStats.Sum]
    simp only [i64_add_comm a.OutBytes.Value, i64_add_comm a.Status5xx.Value,
      i64_add_comm a.Status4xx.Value, i64_add_comm a.Status3xx.Value,
      i64_add_comm a.Status2xx.Value, i64_add_comm a.Tps5xx.Value,
      i64_add_comm a.Tps4xx.Value, i64_add_comm a.Tps3xx.Value,
      i64_add_comm a.Tps2xx.Value, i64_add_comm a.TpsTotal.Value]
  · simp only [StatCacheStats.Sum]
    exact Bool.or_comm _ _
  · intro hn
    refine ⟨hin, ?_⟩
    rw [← hin]
    exact f64_eq_self _ hn
  · intro hn
    refine ⟨hkb, ?_⟩
    rw [← hkb]
    exact f64_eq_self _ hn

/-- C4, at the aggregates at the limits, whose `Kbps` sum `2^53 + 1.0` is not
NaN: the two orders give the same rate, equal under Go's `==`. -/
theorem c4_Sum_comm_witness :
    (limitA.Sum unitB).Kbps.Value ≠ F64.nan ∧
    (limitA.Sum unitB).Kbps.Value = (unitB.Sum limitA).Kbps.Value ∧
    F64.eq (limitA.Sum unitB).Kbps.Value (unitB.Sum limitA).Kbps.Value = true :=
  ⟨by decide, (c4_Sum_comm limitA unitB).2.2.2.2.2 (by decide)⟩

/-- C4 as stated fails on the rates: with `Kbps` of `+Inf` and `-Inf` both
`Sum(a, b)` and `Sum(b, a)` have a NaN `Kbps`, and with `Kbps` of NaN and `1.0`
likewise; Go's `==` reports the rate of `Sum(a, b)` as not equal to that of
`Sum(b, a)`. -/
theorem c4_Sum_not_comm_at_nan :
    (posInfRate.Sum negInfRate).Kbps.Value = F64.nan ∧
    (negInfRate.Sum posInfRate).Kbps.Value = F64.nan ∧
    F64.eq (posInfRate.Sum negInfRate).Kbps.Value (negInfRate.Sum posInfRate).Kbps.Value
      = false ∧
    F64.eq (nanRate.Sum unitB).Kbps.Value (unitB.Sum nanRate).Kbps.Value = false := by
  decide

/-- C5 (as amended): `Sum` is associative on the ten integer counters, also
when 64-bit addition overflows, and on the flag `IsAvailable`. -/
theorem c5_Sum_assoc (a b c : StatCacheStats) :
    (a.Sum (b.Sum c)).counters = ((a.Sum b).Sum c).counters ∧
    (a.Sum (b.Sum c)).IsAvailable.Value = ((a.Sum b).Sum c).IsAvailable.Value := by
  refine ⟨?_, ?_⟩
  · simp only [counters, StatCacheStats.Sum, i64_add_assoc]
  · simp only [StatCacheStats.Sum, Bool.or_assoc]

/-- C5 as stated fails on the rates: with `Kbps` of `2^53`, `1.0` and `1.0`,
`Sum(Sum(a, b), c)` has `Kbps` `2^53` (each `2^53 + 1.0` rounds back to
`2^53`) while `Sum(a, Sum(b, c))` has `Kbps` `2^53 + 2`; the two are different
values, also for Go's `==`. -/
theorem c5_Sum_not_assoc_on_rates :
    ((limitA.Sum unitB).Sum unitB).Kbps.Value = F64.twoPow53 ∧
    (limitA.Sum (unitB.Sum unitB)).Kbps.Value = F64.fin false 1076 1 ∧
    (limitA.Sum (unitB.Sum unitB)).Kbps.Value ≠ ((limitA.Sum unitB).Sum unitB).Kbps.Value ∧
    F64.eq (limitA.Sum (unitB.Sum unitB)).Kbps.Value ((limitA.Sum unitB).Sum unitB).Kbps.Value
      = false := by
  decide

/-- C6 (as amended): `Sum(a, zero)` has the integer counters and the flag
`IsAvailable` of `a`; each of the two rates of `Sum(a, zero)` is the rate of
`a`, except that a rate of negative zero becomes positive zero; so Go's `==`
holds between the rate of `Sum(a, zero)` and that of `a` unless the latter is
NaN (which stays NaN). -/
theorem c6_Sum_zero (a : StatCacheStats) :
    (a.Sum {}).counters = a.counters ∧
    (a.Sum {}).IsAvailable.Value = a.IsAvailable.Value ∧
    (a.InBytes.Value ≠ F64.negZero → (a.Sum {}).InBytes.Value = a.InBytes.Value) ∧
    (a.InBytes.Value = F64.negZero → (a.Sum {}).InBytes.Value = F64.zero) ∧
    (a.InBytes.Value ≠ F64.nan → F64.eq (a.Sum {}).InBytes.Value a.InBytes.Value = true) ∧
    (a.Kbps.Value ≠ F64.negZero → (a.Sum {}).Kbps.Value = a.Kbps.Value) ∧
    (a.Kbps.Value = F64.negZero → (a.Sum {}).Kbps.Value = F64.zero) ∧
    (a.Kbps.Value ≠ F64.nan → F64.eq (a.Sum {}).Kbps.Value a.Kbps.Value = true) := by
  refine ⟨?_, ?_, ?_, ?_, ?_, ?_, ?_, ?_⟩
  · simp only [counters, StatCacheStats.Sum, i64_add_zero]
  · simp only [StatCacheStats.Sum, Bool.or_false]
  · intro h; exact f64_add_zero _ h
  · intro h; simp only [StatCacheStats.Sum, h]; decide
  · intro h; exact f64_eq_add_zero _ h
  · intro h; exact f64_add_zero _ h
  · intro h; simp only [StatCacheStats.Sum, h]; decide
  · intro h; exact f64_eq_add_zero _ h

/-- C6, at the scenario aggregate and at the aggregate with a bitrate of
negative zero. -/
theorem c6_Sum_zero_witness :
    (scenarioA.Sum {}).counters = scenarioA.counters ∧
    (scenarioA.Sum {}).Kbps.Value = scenarioA.Kbps.Value ∧
    (negZeroRate.Sum {}).Kbps.Value = F64.zero ∧
    F64.eq (negZeroRate.Sum {}).Kbps.Value negZeroRate.Kbps.Value = true :=
  ⟨(c6_Sum_zero scenarioA).1,
   (c6_Sum_zero scenarioA).2.2.2.2.2.1 (by decide),
   (c6_Sum_zero negZeroRate).2.2.2.2.2.2.1 (by decide),
   (c6_Sum_zero negZeroRate).2.2.2.2.2.2.2 (by decide)⟩

/-- C6 as stated fails on the rates: for `a` with `Kbps` of negative zero,
`Sum(a, zero)` has `Kbps` of positive zero, which is not the value of `a`
(the two differ in the sign bit, though Go's `==` reports them equal); and for
`a` with `Kbps` of NaN, Go's `==` reports the rate of `Sum(a, zero)` as
different from that of `a`. -/
theorem c6_Sum_zero_negZero :
    (negZeroRate.Sum {}).Kbps.Value = F64.zero ∧
    (negZeroRate.Sum {}).Kbps.Value ≠ negZeroRate.Kbps.Value ∧
    F64.eq (nanRate.Sum {}).Kbps.Value nanRate.Kbps.Value = false := by
  decide

theorem i64_add_right_comm (a b c : I64) : I64.add (I64.add a b) c = I64.add (I64.add a c) b := by
  rw [i64_add_assoc, i64_add_comm b c, ← i64_add_assoc]

theorem tally_Sum_congr_left {a a1 : StatCacheStats} (b : StatCacheStats)
    (h : a.tally = a1.tally) : (a.Sum b).tally = (a1.Sum b).tally := by
  simp only [tally, counters, Prod.mk.injEq, List.cons.injEq, and_true] at h
  obtain ⟨⟨h1, h2, h3, h4, h5, h6, h7, h8, h9, h10⟩, h11⟩ := h
  simp only [tally, counters, StatCacheStats.Sum, h1, h2, h3, h4, h5, h6, h7, h8, h9, h10, h11]

theorem tally_Sum_congr_right (a : StatCacheStats) {b b1 : StatCacheStats}
    (h : b.tally = b1.tally) : (a.Sum b).tally = (a.Sum b1).tally := by
  simp only [tally, counters, Prod.mk.injEq, List.cons.injEq, and_true] at h
  obtain ⟨⟨h1, h2, h3, h4, h5, h6, h7, h8, h9, h10⟩, h11⟩ := h
  simp only [tally, counters, StatCacheStats.Sum, h1, h2, h3, h4, h5, h6, h7, h8, h9, h10, h11]

theorem tally_Sum_right_comm (a x y : StatCacheStats) :
    ((a.Sum x).Sum y).tally = ((a.Sum y).Sum x).tally := by
  simp only [tally, counters, StatCacheStats.Sum, Prod.mk.injEq, List.cons.injEq, and_true]
  exact ⟨⟨i64_add_right_comm _ _ _, i64_add_right_comm _ _ _, i64_add_right_comm _ _ _,
    i64_add_right_comm _ _ _, i64_add_right_comm _ _ _, i64_add_right_comm _ _ _,
    i64_add_right_comm _ _ _, i64_add_right_comm _ _ _, i64_add_right_comm _ _ _,
    i64_add_right_comm _ _ _⟩, Bool.or_right_comm _ _ _⟩

theorem tally_Sum_assoc (a b c : StatCacheStats) :
    ((a.Sum b).Sum c).tally = (a.Sum (b.Sum c)).tally := by
  simp only [tally, counters, StatCacheStats.Sum, i64_add_assoc, Bool.or_assoc]

theorem tally_zero_Sum (a : StatCacheStats) : (Sum {} a).tally = a.tally := by
  simp only [tally, counters, StatCacheStats.Sum, Bool.false_or]
  simp only [show ∀ x : I64, I64.add ({} : StatInt).Value x = x from i64_zero_add]

theorem tally_Sum_zero (a : StatCacheStats) : (a.Sum {}).tally = a.tally := by
  simp only [tally, counters, StatCacheStats.Sum, Bool.or_false]
  simp only [show ∀ x : I64, I64.add x ({} : StatInt).Value = x from i64_add_zero]

theorem tally_foldl_congr (xs : List StatCacheStats) :
    ∀ {z z1 : StatCacheStats}, z.tally = z1.tally →
      (xs.foldl StatCacheStats.Sum z).tally = (xs.foldl StatCacheStats.Sum z1).tally := by
  induction xs with
  | nil => intro z z1 h; exact h
  | cons x xs ih => intro z z1 h; exact ih (tally_Sum_congr_left x h)

theorem tally_foldl_perm {xs ys : List StatCacheStats} (p : List.Perm xs ys) :
    ∀ z : StatCacheStats,
      (xs.foldl StatCacheStats.Sum z).tally = (ys.foldl StatCacheStats.Sum z).tally := by
  induction p with
  | nil => intro z; rfl
  | cons x _ ih => intro z; exact ih (z.Sum x)
  | swap x y l => intro z; exact tally_foldl_congr l (tally_Sum_right_comm z y x)
  | trans _ _ ih1 ih2 => intro z; exact (ih1 z).trans (ih2 z)

theorem tally_foldl_Sum (ys : List StatCacheStats) :
    ∀ w : StatCacheStats,
      (ys.foldl StatCacheStats.Sum w).tally = (w.Sum (ys.foldl StatCacheStats.Sum {})).tally := by
  induction ys with
  | nil => intro w; exact (tally_Sum_zero w).symm
  | cons y ys ih =>
    intro w
    simp only [List.foldl_cons]
    rw [ih (w.Sum y), tally_Sum_assoc]
    refine tally_Sum_congr_right w ?_
    rw [ih (Sum {} y)]
    exact tally_Sum_congr_left _ (tally_zero_Sum y).symm

/-- C7: folding `Sum` from the all-default aggregate over two lists that are
permutations of each other gives the same integer counters and the same
`IsAvailable` flag, and the fold of `xs ++ ys` agrees on those fields with
`Sum(fold xs, fold ys)`. -/
theorem c7_fold_order_independent (xs ys : List StatCacheStats) :
    (List.Perm xs ys →
      (xs.foldl StatCacheStats.Sum {}).counters = (ys.foldl StatCacheStats.Sum {}).counters ∧
      (xs.foldl StatCacheStats.Sum {}).IsAvailable.Value
        = (ys.foldl StatCacheStats.Sum {}).IsAvailable.Value) ∧
    ((xs ++ ys).foldl StatCacheStats.Sum {}).counters
      = ((xs.foldl StatCacheStats.Sum {}).Sum (ys.foldl StatCacheStats.Sum {})).counters ∧
    ((xs ++ ys).foldl StatCacheStats.Sum {}).IsAvailable.Value
      = ((xs.foldl StatCacheStats.Sum {}).Sum (ys.foldl StatCacheStats.Sum {})).IsAvailable.Value := by
  have happ := tally_foldl_Sum ys (xs.foldl StatCacheStats.Sum {})
  rw [← List.foldl_append] at happ
  refine ⟨fun p => ?_, congrArg Prod.fst happ, congrArg Prod.snd happ⟩
  have hp := tally_foldl_perm p {}
  exact ⟨congrArg Prod.fst hp, congrArg Prod.snd hp⟩

/-- C7, at the two orders of the scenario aggregate and the aggregate at the
limits (whose `OutBytes` sum overflows). -/
theorem c7_fold_order_independent_witness :
    ([scenarioA, limitA, unitB].foldl StatCacheStats.Sum {}).counters
      = ([unitB, scenarioA, limitA].foldl StatCacheStats.Sum {}).counters ∧
    ([scenarioA, limitA, unitB].foldl StatCacheStats.Sum {}).IsAvailable.Value
      = ([unitB, scenarioA, limitA].foldl StatCacheStats.Sum {}).IsAvailable.Value :=
  (c7_fold_order_independent [scenarioA, limitA, unitB] [unitB, scenarioA, limitA]).1 (by decide)

/-! ## Go maps -/

namespace Store

theorem get_of_lookup_some {V : Type} [Inhabited V] {st : Store V} {m : MapRef} {k : String} {v : V}
    (h : (st.contents m).lookup k = some v) : st.get m k = (v, true) := by
  simp only [get, h]

theorem get_of_lookup_none {V : Type} [Inhabited V] {st : Store V} {m : MapRef} {k : String}
    (h : (st.contents m).lookup k = none) : st.get m k = (default, false) := by
  simp only [get, h]

theorem get_nil {V : Type} [Inhabited V] (st : Store V) (k : String) : st.get none k = (default, false) := rfl

theorem get_congr {V : Type} [Inhabited V] {st st1 : Store V} {m m1 : MapRef} {k : String}
    (h : (st.contents m).lookup k = (st1.contents m1).lookup k) : st.get m k = st1.get m1 k := by
  simp only [get, h]

theorem set_some {V : Type} (st : Store V) (p : Nat) (k : String) (v : V) :
    st.set (some p) k v = some (fun q => if q = p then (st p).insert k v else st q) := rfl

/-- The loop `for k, v := range src { dst[k] = v }` on a non-nil `dst` never
panics; it inserts the visited entries into the object of `dst`, one by one. -/
theorem foldlM_set_some {V : Type} (p : Nat) (l : List (String × V)) :
    ∀ st : Store V, l.foldlM (fun st1 kv => st1.set (some p) kv.1 kv.2) st
      = some (fun q => if q = p then l.foldl (fun m kv => m.insert kv.1 kv.2) (st p) else st q) := by
  induction l with
  | nil =>
    intro st
    simp only [List.foldlM, List.foldl_nil, pure, Option.some.injEq]
    funext q
    by_cases hq : q = p <;> simp [hq]
  | cons e l ih =>
    intro st
    have hstep : st.set (some p) e.1 e.2
        = some (fun q => if q = p then (st p).insert e.1 e.2 else st q) := rfl
    simp only [List.foldlM, hstep, Option.bind_eq_bind, Option.some_bind, List.foldl_cons]
    rw [ih]
    congr 1
    funext q
    by_cases hq : q = p <;> simp [hq]

/-- Inserting entries with distinct keys, one by one: a key among them gets
its entry, every other key keeps what the map held. -/
theorem lookup_foldl_insert {V : Type} (k : String) (l : List (Sigma fun _ : String => V)) :
    ∀ m : GoMap V, l.NodupKeys →
      (l.foldl (fun m e => m.insert e.1 e.2) m).lookup k
        = (match l.dlookup k with
           | some v => some v
           | none => m.lookup k) := by
  induction l with
  | nil => intro m _; rfl
  | cons e l ih =>
    intro m hnd
    obtain ⟨a, b⟩ := e
    rw [List.nodupKeys_cons] at hnd
    simp only [List.foldl_cons]
    rw [ih _ hnd.2]
    by_cases hk : k = a
    · subst hk
      have hnone : l.dlookup k = none := List.dlookup_eq_none.2 hnd.1
      simp only [hnone, List.dlookup_cons_eq, AList.lookup_insert]
    · have h1 : List.dlookup k (⟨a, b⟩ :: l) = List.dlookup k l := List.dlookup_cons_ne l _ hk
      rw [h1, AList.lookup_insert_ne hk]

theorem range_foldl {V : Type} (st : Store V) (m : MapRef) (g : GoMap V) :
    (st.range m).foldl (fun m kv => m.insert kv.1 kv.2) g
      = (st.contents m).entries.foldl (fun m e => m.insert e.1 e.2) g := by
  simp only [range, List.foldl_map]

/-- What the copy loop leaves in the heap: the object of `dst` holds the
entries of `src` over its own, every other object is untouched. -/
theorem copyInto_some {V : Type} (st : Store V) (src : MapRef) (p : Nat) :
    ∃ st1, st.copyInto src (some p) = some st1 ∧
      (∀ q, q ≠ p → st1 q = st q) ∧
      (∀ k, (st1 p).lookup k
        = (match (st.contents src).lookup k with
           | some v => some v
           | none => (st p).lookup k)) := by
  refine ⟨_, foldlM_set_some p (st.range src) st, ?_, ?_⟩
  · intro q hq; simp only [hq, if_false]
  · intro k
    simp only [if_true, range_foldl]
    exact lookup_foldl_insert k _ _ (st.contents src).nodupKeys

/-- Copying a map into itself, the loop of `StatCommon.Copy`: it never panics
and no lookup changes. -/
theorem copyInto_self {V : Type} (st : Store V) (m : MapRef) :
    ∃ st1, st.copyInto m m = some st1 ∧
      ∀ (m1 : MapRef) (k : String), (st1.contents m1).lookup k = (st.contents m1).lookup k := by
  cases m with
  | none => exact ⟨st, rfl, fun _ _ => rfl⟩
  | some p =>
    obtain ⟨st1, h1, h2, h3⟩ := copyInto_some st (some p) p
    refine ⟨st1, h1, ?_⟩
    intro m1 k
    cases m1 with
    | none => rfl
    | some q =>
      simp only [contents]
      by_cases hq : q = p
      · subst hq
        rw [h3 k]
        simp only [contents]
        cases hl : (st q).lookup k <;> rfl
      · rw [h2 q hq]

end Store

/-! ## The common/health aggregate and the composite snapshot -/

/-- The method `StatCommon.Copy` never panics; it returns the struct it was given, whose
reporting map is the very map object of the original, and changes no lookup in
any reporting map. -/
theorem statCommon_Copy_spec (c : StatCommon) (h : Heap) :
    ∃ r, c.Copy h = some (c, { h with reporting := r }) ∧
      ∀ (m : MapRef) (k : String), (r.contents m).lookup k = (h.reporting.contents m).lookup k := by
  obtain ⟨r, hr, hl⟩ := Store.copyInto_self h.reporting c.CachesReporting
  exact ⟨r, by simp only [StatCommon.Copy, hr], hl⟩

/-- C2 fails on the code: with `d := c.Copy()`, inserting `"x"` into the
reporting map of `d`, overwriting `"a"` in it or deleting `"a"` from it
changes what `c.CacheReporting` returns, the two structs holding the same map
object. -/
theorem c2_Copy_shares_reporting_map :
    commonA.CacheReporting heapA "x" = (false, false) ∧
    (commonA.copyThenAssign heapA "x" true).map (fun h1 => commonA.CacheReporting h1 "x")
      = some (true, true) ∧
    commonA.CacheReporting heapA "a" = (true, true) ∧
    (commonA.copyThenAssign heapA "a" false).map (fun h1 => commonA.CacheReporting h1 "a")
      = some (false, true) ∧
    (commonA.copyThenDelete heapA "a").map (fun h1 => commonA.CacheReporting h1 "a")
      = some (false, false) ∧
    (commonA.copyThenAssign heapA "x" true).map (fun h1 => commonA.CachesReportingNames h1)
      = some ["x", "a"] := by
  decide

/-- C3 fails on the code: with `s := NewStat()` and `t := s.Copy()`, assigning
`"x"` in the reporting map of `t`'s common aggregate changes
`s.Common().CacheReporting("x")` from `(false, false)` to `(true, true)` and
adds `"x"` to `s.Common().CachesReportingNames()`. -/
theorem c3_Copy_shares_reporting_map :
    (NewStat Heap.empty).1.Common.CacheReporting (NewStat Heap.empty).2 "x" = (false, false) ∧
    ((NewStat Heap.empty).1.copyThenAssignReporting (NewStat Heap.empty).2 "x" true).map
        (fun h1 => (NewStat Heap.empty).1.Common.CacheReporting h1 "x") = some (true, true) ∧
    (NewStat Heap.empty).1.Common.CachesReportingNames (NewStat Heap.empty).2 = [] ∧
    ((NewStat Heap.empty).1.copyThenAssignReporting (NewStat Heap.empty).2 "x" true).map
        (fun h1 => (NewStat Heap.empty).1.Common.CachesReportingNames h1) = some ["x"] := by
  decide

theorem mapRef_allocated_ne {m : MapRef} {h : Heap} (hm : MapRef.allocated m h = true)
    {p : Nat} (hp : h.nextAddr ≤ p) : m ≠ some p := by
  rintro rfl
  simp only [MapRef.allocated, decide_eq_true_eq] at hm
  omega

/-- Allocating an empty map at an address leaves the contents of every map
value that does not refer to that address. -/
theorem Store.contents_alloc {V : Type} (st : Store V) (p : Nat) {m : MapRef} (hm : m ≠ some p) :
    Store.contents (fun q => if q = p then ∅ else st q) m = st.contents m := by
  cases m with
  | none => rfl
  | some q =>
    have hq : q ≠ p := fun e => hm (by rw [e])
    simp only [Store.contents, hq, if_false]

/-- The method `Stat.Copy` never panics on a snapshot that lives in the heap: the copy has
the common aggregate and the total of the original and two new maps, at the
first two unused addresses, that hold the entries of the original's maps; the
maps of the original keep their entries. -/
theorem stat_Copy_spec (s : Stat) (h : Heap) (hs : s.allocated h = true) :
    ∃ r g t, s.Copy h = some
        ({ CommonStats := s.CommonStats, TotalStats := s.TotalStats,
           CacheGroups := some h.nextAddr, Types := some (h.nextAddr + 1) },
         { reporting := r, cacheGroups := g, types := t, nextAddr := h.nextAddr + 2 }) ∧
      (∀ (m : MapRef) (k : String), (r.contents m).lookup k = (h.reporting.contents m).lookup k) ∧
      (∀ k, (g h.nextAddr).lookup k = (h.cacheGroups.contents s.CacheGroups).lookup k) ∧
      (∀ k, (t (h.nextAddr + 1)).lookup k = (h.types.contents s.Types).lookup k) ∧
      (∀ m, MapRef.allocated m h = true → g.contents m = h.cacheGroups.contents m) ∧
      (∀ m, MapRef.allocated m h = true → t.contents m = h.types.contents m) := by
  simp only [Stat.allocated, Bool.and_eq_true] at hs
  obtain ⟨⟨-, hg⟩, ht⟩ := hs
  obtain ⟨r, hr, hrl⟩ := statCommon_Copy_spec s.CommonStats h
  obtain ⟨g, hgc, hg1, hg2⟩ := Store.copyInto_some
    (fun q => if q = h.nextAddr then ∅ else h.cacheGroups q) s.CacheGroups h.nextAddr
  obtain ⟨t, htc, ht1, ht2⟩ := Store.copyInto_some
    (fun q => if q = h.nextAddr + 1 then ∅ else h.types q) s.Types (h.nextAddr + 1)
  refine ⟨r, g, t, ?_, hrl, ?_, ?_, ?_, ?_⟩
  · simp only [Stat.Copy, hr, hgc, htc]
  · intro k
    rw [hg2 k, Store.contents_alloc _ _ (mapRef_allocated_ne hg (le_refl _))]
    cases (h.cacheGroups.contents s.CacheGroups).lookup k with
    | some v => rfl
    | none => simp only [if_true]; rfl
  · intro k
    rw [ht2 k, Store.contents_alloc _ _ (mapRef_allocated_ne ht (Nat.le_succ _))]
    cases (h.types.contents s.Types).lookup k with
    | some v => rfl
    | none => simp only [if_true]; rfl
  · intro m hm
    cases m with
    | none => rfl
    | some q =>
      have hq : q ≠ h.nextAddr := fun e => mapRef_allocated_ne hm (le_refl _) (by rw [e])
      simp only [Store.contents, hg1 q hq, hq, if_false]
  · intro m hm
    cases m with
    | none => rfl
    | some q =>
      have hq : q ≠ h.nextAddr + 1 := fun e => mapRef_allocated_ne hm (Nat.le_succ _) (by rw [e])
      simp only [Store.contents, ht1 q hq, hq, if_false]

/-- C8: `Copy` preserves content. For a common aggregate `c`, `c.Copy()`
returns a value with the scalar fields of `c` whose `CacheReporting(n)` is that
of `c`, for every name `n`. For a snapshot `s` whose maps live in the heap (nil
maps included), `s.Copy()` returns a snapshot `t` with `t.CacheGroup(id)`,
`t.Type(id)` and `t.Total()` those of `s`, and with a common aggregate that has
the scalar fields and the reporting entries of `s`'s. -/
theorem c8_Copy_preserves_content (c : StatCommon) (s : Stat) (h : Heap)
    (hs : s.allocated h = true) :
    (∃ d h1, c.Copy h = some (d, h1) ∧
      d.CachesConfigured = c.CachesConfigured ∧ d.Error = c.Error ∧ d.Status = c.Status ∧
      d.Healthy = c.Healthy ∧ d.Available = c.Available ∧
      d.CachesAvailable = c.CachesAvailable ∧
      ∀ n, d.CacheReporting h1 n = c.CacheReporting h n) ∧
    (∃ t h1, s.Copy h = some (t, h1) ∧
      (∀ id, t.CacheGroup h1 id = s.CacheGroup h id) ∧
      (∀ id, t.Type' h1 id = s.Type' h id) ∧
      t.Total = s.Total ∧
      t.Common.CachesConfigured = s.Common.CachesConfigured ∧
      t.Common.Error = s.Common.Error ∧ t.Common.Status = s.Common.Status ∧
      t.Common.Healthy = s.Common.Healthy ∧ t.Common.Available = s.Common.Available ∧
      t.Common.CachesAvailable = s.Common.CachesAvailable ∧
      ∀ n, t.Common.CacheReporting h1 n = s.Common.CacheReporting h n) := by
  constructor
  · obtain ⟨r, hr, hl⟩ := statCommon_Copy_spec c h
    exact ⟨c, _, hr, rfl, rfl, rfl, rfl, rfl, rfl, fun n => Store.get_congr (hl _ n)⟩
  · obtain ⟨r, g, t, hc, hr, hg, ht, -, -⟩ := stat_Copy_spec s h hs
    exact ⟨_, _, hc, fun id => Store.get_congr (hg id), fun id => Store.get_congr (ht id),
      rfl, rfl, rfl, rfl, rfl, rfl, rfl, fun n => Store.get_congr (hr _ n)⟩

/-- C8, at a snapshot with one reporting entry, one cache group and a nil
cache-type map. -/
theorem c8_Copy_preserves_content_witness :
    statA.allocated heapS = true ∧
    ∃ t h1, statA.Copy heapS = some (t, h1) ∧
      (∀ id, t.CacheGroup h1 id = statA.CacheGroup heapS id) ∧
      (∀ id, t.Type' h1 id = statA.Type' heapS id) ∧
      t.Total = statA.Total ∧
      ∀ n, t.Common.CacheReporting h1 n = statA.Common.CacheReporting heapS n := by
  refine ⟨by decide, ?_⟩
  obtain ⟨t, h1, hc, hg, ht, htot, -, -, -, -, -, -, hr⟩ :=
    (c8_Copy_preserves_content commonA statA heapS (by decide)).2
  exact ⟨t, h1, hc, hg, ht, htot, hr⟩

/-- C9: for a common aggregate `c` with a non-nil reporting map and a name `X`,
the assignment `c.CachesReporting[X] = true` succeeds; afterwards
`c.CacheReporting(X)` returns `(true, true)` and the result for every other
name is as before; after `delete(c.CachesReporting, X)` on top of it,
`c.CacheReporting(X)` returns `(false, false)`. -/
theorem c9_reporting_set_consistency (c : StatCommon) (h : Heap) (X : enum.CacheName)
    (hc : c.CachesReporting ≠ none) :
    ∃ h1, h.setReporting c.CachesReporting X true = some h1 ∧
      c.CacheReporting h1 X = (true, true) ∧
      (∀ Y, Y ≠ X → c.CacheReporting h1 Y = c.CacheReporting h Y) ∧
      c.CacheReporting (h1.deleteReporting c.CachesReporting X) X = (false, false) := by
  cases hm : c.CachesReporting with
  | none => exact absurd hm hc
  | some p =>
    refine ⟨_, rfl, ?_, ?_, ?_⟩
    · apply Store.get_of_lookup_some
      simp only [hm, Store.contents, if_true, AList.lookup_insert]
    · intro Y hY
      apply Store.get_congr
      simp only [hm, Store.contents, if_true, AList.lookup_insert_ne hY]
    · apply Store.get_of_lookup_none
      simp only [hm, Heap.deleteReporting, Store.delete, Store.contents, if_true,
        AList.lookup_erase]

/-- C9, at the common aggregate of `heapA` and the name `"x"`. -/
theorem c9_reporting_set_consistency_witness :
    commonA.CachesReporting ≠ none ∧
    ∃ h1, heapA.setReporting commonA.CachesReporting "x" true = some h1 ∧
      commonA.CacheReporting h1 "x" = (true, true) ∧
      commonA.CacheReporting h1 "a" = (true, true) ∧
      commonA.CacheReporting (h1.deleteReporting commonA.CachesReporting "x") "x"
        = (false, false) := by
  refine ⟨by decide, ?_⟩
  obtain ⟨h1, hset, hx, hy, hd⟩ := c9_reporting_set_consistency commonA heapA "x" (by decide)
  exact ⟨h1, hset, hx, (hy "a" (by decide)).trans (by decide), hd⟩

theorem Store.get_eq_iff {V : Type} [Inhabited V] (st : Store V) (m : MapRef) (k : String)
    (v : V) :
    st.get m k = (v, true) ↔ (⟨k, v⟩ : Sigma fun _ : String => V) ∈ (st.contents m).entries := by
  rw [← AList.mem_lookup_iff, Option.mem_def]
  unfold Store.get
  cases hl : (st.contents m).lookup k with
  | some w => simp
  | none => simp

theorem Store.get_absent {V : Type} [Inhabited V] (st : Store V) (m : MapRef) (k : String)
    (hk : k ∉ (st.contents m).keys) : st.get m k = (default, false) :=
  Store.get_of_lookup_none (AList.lookup_eq_none.2 (fun hmem => hk (AList.mem_keys.1 hmem)))

/-- C10: the three lookups signal absence. `s.CacheGroup(id)` returns
`(v, true)` exactly when the cache-group map has the entry `id: v`, and the
all-default aggregate with `false` when `id` is not a key of it, in
particular when the map is nil; likewise `s.Type(id)` on the cache-type map
and `c.CacheReporting(name)`, which returns `(false, false)` for an absent
name, on the reporting map. -/
theorem c10_lookups_signal_absence (s : Stat) (c : StatCommon) (h : Heap) (id : String) :
    ((∀ v, s.CacheGroup h id = (v, true) ↔
        (⟨id, v⟩ : Sigma fun _ : String => StatCacheStats)
          ∈ (h.cacheGroups.contents s.CacheGroups).entries) ∧
      (id ∉ (h.cacheGroups.contents s.CacheGroups).keys → s.CacheGroup h id = ({}, false)) ∧
      (s.CacheGroups = none → s.CacheGroup h id = ({}, false))) ∧
    ((∀ v, s.Type' h id = (v, true) ↔
        (⟨id, v⟩ : Sigma fun _ : String => StatCacheStats)
          ∈ (h.types.contents s.Types).entries) ∧
      (id ∉ (h.types.contents s.Types).keys → s.Type' h id = ({}, false)) ∧
      (s.Types = none → s.Type' h id = ({}, false))) ∧
    ((∀ v, c.CacheReporting h id = (v, true) ↔
        (⟨id, v⟩ : Sigma fun _ : String => Bool)
          ∈ (h.reporting.contents c.CachesReporting).entries) ∧
      (id ∉ (h.reporting.contents c.CachesReporting).keys →
        c.CacheReporting h id = (false, false)) ∧
      (c.CachesReporting = none → c.CacheReporting h id = (false, false))) := by
  refine ⟨⟨fun v => Store.get_eq_iff _ _ _ v, Store.get_absent _ _ _, ?_⟩,
    ⟨fun v => Store.get_eq_iff _ _ _ v, Store.get_absent _ _ _, ?_⟩,
    ⟨fun v => Store.get_eq_iff _ _ _ v, Store.get_absent _ _ _, ?_⟩⟩
  · intro hn; simp only [Stat.CacheGroup, hn]; rfl
  · intro hn; simp only [Stat.Type', hn]; rfl
  · intro hn; simp only [StatCommon.CacheReporting, hn]; rfl

/-- C10, at the snapshot `statA`: the cache group `"g"` is found, the cache
group `"z"` is not, and no cache type is found in the nil cache-type map. -/
theorem c10_lookups_signal_absence_witness :
    statA.CacheGroup heapS "g" = (scenarioA, true) ∧
    statA.CacheGroup heapS "z" = ({}, false) ∧
    statA.Type' heapS "z" = ({}, false) ∧
    commonA.CacheReporting heapS "z" = (false, false) :=
  ⟨((c10_lookups_signal_absence statA commonA heapS "g").1.1 scenarioA).2 (by decide),
   (c10_lookups_signal_absence statA commonA heapS "z").1.2.1 (by decide),
   (c10_lookups_signal_absence statA commonA heapS "z").2.1.2.2 (by decide),
   (c10_lookups_signal_absence statA commonA heapS "z").2.2.2.1 (by decide)⟩

/-! ## Construction and the names of the reporting caches -/

/-- C11: a fresh snapshot is empty. For `NewStat()`, `CacheGroup(id)` and
`Type(id)` return not-found for every `id`, `Total()` is the all-default
aggregate, `CachesReportingNames()` is empty, `CacheReporting(name)` returns
`(false, false)` for every name and every scalar of the common aggregate is
the default; the three maps are non-nil, so that an assignment to any of them
succeeds. -/
theorem c11_NewStat_empty (h : Heap) :
    (∀ id, (NewStat h).1.CacheGroup (NewStat h).2 id = ({}, false)) ∧
    (∀ id, (NewStat h).1.Type' (NewStat h).2 id = ({}, false)) ∧
    (NewStat h).1.Total = {} ∧
    (NewStat h).1.Common.CachesReportingNames (NewStat h).2 = [] ∧
    (∀ n, (NewStat h).1.Common.CacheReporting (NewStat h).2 n = (false, false)) ∧
    ((NewStat h).1.Common.CachesConfigured = {} ∧ (NewStat h).1.Common.Error = {} ∧
      (NewStat h).1.Common.Status = {} ∧ (NewStat h).1.Common.Healthy = {} ∧
      (NewStat h).1.Common.Available = {} ∧ (NewStat h).1.Common.CachesAvailable = {}) ∧
    ((NewStat h).1.CacheGroups ≠ none ∧ (NewStat h).1.Types ≠ none ∧
      (NewStat h).1.Common.CachesReporting ≠ none) ∧
    (∀ k v, ((NewStat h).2.setCacheGroup (NewStat h).1.CacheGroups k v).isSome = true) ∧
    (∀ k v, ((NewStat h).2.setType (NewStat h).1.Types k v).isSome = true) ∧
    (∀ k v, ((NewStat h).2.setReporting (NewStat h).1.Common.CachesReporting k v).isSome
      = true) := by
  refine ⟨?_, ?_, rfl, ?_, ?_, ⟨rfl, rfl, rfl, rfl, rfl, rfl⟩, ?_, ?_, ?_, ?_⟩
  · intro id
    simp [NewStat, Stat.CacheGroup, Store.get, Store.contents]
    rfl
  · intro id
    simp [NewStat, Stat.Type', Store.get, Store.contents]
    rfl
  · simp [NewStat, Stat.Common, StatCommon.CachesReportingNames, Store.range, Store.contents]
  · intro n
    simp [NewStat, Stat.Common, StatCommon.CacheReporting, Store.get, Store.contents]
  · simp [NewStat, Stat.Common]
  · intro k v; rfl
  · intro k v; rfl
  · intro k v; rfl

theorem foldl_append_singleton {α β : Type} (f : α → β) (l : List α) :
    ∀ init : List β, l.foldl (fun names x => names ++ [f x]) init = init ++ l.map f := by
  induction l with
  | nil => intro init; simp
  | cons x l ih => intro init; simp [ih]

/-- The method `CachesReportingNames` returns the keys of the reporting map. -/
theorem CachesReportingNames_eq_keys (c : StatCommon) (h : Heap) :
    c.CachesReportingNames h = (h.reporting.contents c.CachesReporting).keys := by
  unfold StatCommon.CachesReportingNames Store.range
  rw [foldl_append_singleton, List.nil_append, List.map_map]
  rfl

theorem Store.get_found_iff {V : Type} [Inhabited V] (st : Store V) (m : MapRef) (k : String) :
    (st.get m k).2 = true ↔ k ∈ (st.contents m).keys := by
  rw [← AList.mem_keys, ← AList.lookup_isSome]
  unfold Store.get
  cases hl : (st.contents m).lookup k <;> simp

/-- C12: `CachesReportingNames()` returns exactly the keys of the reporting
map. A name occurs in the result if and only if `CacheReporting(name)` reports
found, whatever the stored boolean; no name occurs twice; the length of the
result is the number of entries of the reporting map; and the result does not
depend on `CachesConfiguredNum`. -/
theorem c12_names_are_keys (c : StatCommon) (h : Heap) :
    (∀ n, n ∈ c.CachesReportingNames h ↔ (c.CacheReporting h n).2 = true) ∧
    (c.CachesReportingNames h).Nodup ∧
    (c.CachesReportingNames h).length
      = (h.reporting.contents c.CachesReporting).entries.length ∧
    (∀ x : StatInt, ({ c with CachesConfiguredNum := x } : StatCommon).CachesReportingNames h
      = c.CachesReportingNames h) := by
  have hk := CachesReportingNames_eq_keys c h
  refine ⟨?_, ?_, ?_, ?_⟩
  · intro n
    rw [hk]
    exact (Store.get_found_iff _ _ n).symm
  · rw [hk]; exact AList.keys_nodup _
  · rw [hk]; simp [AList.keys, List.keys]
  · intro x; rfl

/-! ## Totality, purity and isolation of `Copy` -/

theorem Store.contents_set_ne {V : Type} {st st1 : Store V} {m : MapRef} {k : String} {v : V}
    (hset : st.set m k v = some st1) {m1 : MapRef} (hne : m1 ≠ m) :
    st1.contents m1 = st.contents m1 := by
  cases m with
  | none => exact absurd hset (by simp [Store.set])
  | some p =>
    simp only [Store.set, Option.some.injEq] at hset
    subst hset
    cases m1 with
    | none => rfl
    | some q =>
      have hq : q ≠ p := fun e => hne (by rw [e])
      simp only [Store.contents, hq, if_false]

theorem Store.contents_delete_ne {V : Type} (st : Store V) {m : MapRef} (k : String)
    {m1 : MapRef} (hne : m1 ≠ m) : (st.delete m k).contents m1 = st.contents m1 := by
  cases m with
  | none => rfl
  | some p =>
    cases m1 with
    | none => rfl
    | some q =>
      have hq : q ≠ p := fun e => hne (by rw [e])
      simp only [Store.delete, Store.contents, hq, if_false]

theorem mapRef_allocated_mono {m : MapRef} {h h1 : Heap} (hm : MapRef.allocated m h = true)
    (hle : h.nextAddr ≤ h1.nextAddr) : MapRef.allocated m h1 = true := by
  cases m with
  | none => rfl
  | some p =>
    simp only [MapRef.allocated, decide_eq_true_eq] at hm ⊢
    omega

theorem stat_allocated_mono {s : Stat} {h h1 : Heap} (hs : s.allocated h = true)
    (hle : h.nextAddr ≤ h1.nextAddr) : s.allocated h1 = true := by
  simp only [Stat.allocated, Bool.and_eq_true] at hs ⊢
  exact ⟨⟨mapRef_allocated_mono hs.1.1 hle, mapRef_allocated_mono hs.1.2 hle⟩,
    mapRef_allocated_mono hs.2 hle⟩

/-- What `Stat.Copy` returns and leaves, in terms of the accessors: the copy has
the content of the original, and every snapshot that lives in the heap reads
after the call what it read before. -/
theorem stat_Copy_reads (s : Stat) (h : Heap) (hs : s.allocated h = true) :
    ∃ t h1, s.Copy h = some (t, h1) ∧ h1.nextAddr = h.nextAddr + 2 ∧
      t.CacheGroups = some h.nextAddr ∧ t.Types = some (h.nextAddr + 1) ∧
      t.CommonStats = s.CommonStats ∧ t.TotalStats = s.TotalStats ∧
      (∀ id, t.CacheGroup h1 id = s.CacheGroup h id) ∧
      (∀ id, t.Type' h1 id = s.Type' h id) ∧
      (∀ (u : Stat), u.allocated h = true →
        (∀ id, u.CacheGroup h1 id = u.CacheGroup h id) ∧
        (∀ id, u.Type' h1 id = u.Type' h id)) ∧
      (∀ (c : StatCommon) n, c.CacheReporting h1 n = c.CacheReporting h n) := by
  obtain ⟨r, g, t, hc, hr, hg, ht, hg1, ht1⟩ := stat_Copy_spec s h hs
  refine ⟨_, _, hc, rfl, rfl, rfl, rfl, rfl, fun id => Store.get_congr (hg id),
    fun id => Store.get_congr (ht id), ?_, fun c n => Store.get_congr (hr _ n)⟩
  intro u hu
  simp only [Stat.allocated, Bool.and_eq_true] at hu
  refine ⟨fun id => ?_, fun id => ?_⟩
  · exact Store.get_congr (by rw [show g.contents u.CacheGroups = _ from hg1 _ hu.1.2])
  · exact Store.get_congr (by rw [show t.contents u.Types = _ from ht1 _ hu.2])

/-- C13: `Sum` and the two `Copy` methods are total and pure. `Sum(a, b)` is a
value whose counters are `int64` values, also when a sum overflows, and equal
arguments give equal results. `c.Copy()` returns a value and leaves every
`CacheReporting` as it was, and a second call returns the same value. For a
snapshot `s` that lives in the heap (its maps nil, empty or not), `s.Copy()`
returns a value and leaves every lookup through `s` as it was, and a second
call returns a snapshot with the same content. -/
theorem c13_Copy_Sum_total (a b : StatCacheStats) (c : StatCommon) (s : Stat) (h : Heap)
    (hs : s.allocated h = true) :
    ((∀ x ∈ (a.Sum b).counters, -9223372036854775808 ≤ x.val ∧ x.val ≤ 9223372036854775807) ∧
      (∀ a1 b1 : StatCacheStats, a1 = a → b1 = b → a1.Sum b1 = a.Sum b)) ∧
    (∃ d h1, c.Copy h = some (d, h1) ∧
      (∀ (u : StatCommon) n, u.CacheReporting h1 n = u.CacheReporting h n) ∧
      ∃ h2, c.Copy h1 = some (d, h2) ∧
        ∀ (u : StatCommon) n, u.CacheReporting h2 n = u.CacheReporting h n) ∧
    (∃ t h1, s.Copy h = some (t, h1) ∧
      (∀ id, s.CacheGroup h1 id = s.CacheGroup h id) ∧
      (∀ id, s.Type' h1 id = s.Type' h id) ∧
      (∀ n, s.Common.CacheReporting h1 n = s.Common.CacheReporting h n) ∧
      ∃ t2 h2, s.Copy h1 = some (t2, h2) ∧
        (∀ id, t2.CacheGroup h2 id = t.CacheGroup h1 id) ∧
        (∀ id, t2.Type' h2 id = t.Type' h1 id) ∧
        t2.Total = t.Total ∧ t2.Common = t.Common ∧
        (∀ n, t2.Common.CacheReporting h2 n = t.Common.CacheReporting h1 n)) := by
  refine ⟨⟨fun x _ => x.inRange, fun a1 b1 ha hb => by rw [ha, hb]⟩, ?_, ?_⟩
  · obtain ⟨r, hr, hl⟩ := statCommon_Copy_spec c h
    obtain ⟨r2, hr2, hl2⟩ := statCommon_Copy_spec c { h with reporting := r }
    refine ⟨c, _, hr, fun u n => Store.get_congr (hl _ n), _, hr2, fun u n => ?_⟩
    exact Store.get_congr ((hl2 _ n).trans (hl _ n))
  · obtain ⟨t, h1, hc, hn, -, -, hcs, hts, hg, hty, hu, hr⟩ := stat_Copy_reads s h hs
    have hs1 : s.allocated h1 = true := stat_allocated_mono hs (by omega)
    obtain ⟨t2, h2, hc2, -, -, -, hcs2, hts2, hg2, hty2, -, hr2⟩ := stat_Copy_reads s h1 hs1
    refine ⟨t, h1, hc, (hu s hs).1, (hu s hs).2, fun n => hr _ n, t2, h2, hc2, ?_, ?_, ?_, ?_, ?_⟩
    · intro id; rw [hg2 id, (hu s hs).1 id, hg id]
    · intro id; rw [hty2 id, (hu s hs).2 id, hty id]
    · simp only [Stat.Total, hts2, hts]
    · simp only [Stat.Common, hcs2, hcs]
    · intro n
      simp only [Stat.Common, hcs2, hcs]
      exact hr2 _ n

/-- C13, at the aggregates at the limits (whose `OutBytes` sum overflows) and
at a snapshot with a reporting map, a cache-group map and a nil cache-type
map. -/
theorem c13_Copy_Sum_total_witness :
    statA.allocated heapS = true ∧
    (∀ x ∈ (limitA.Sum unitB).counters,
      -9223372036854775808 ≤ x.val ∧ x.val ≤ 9223372036854775807) ∧
    (∃ d h1, commonA.Copy heapS = some (d, h1)) ∧
    (∃ t h1, statA.Copy heapS = some (t, h1)) := by
  obtain ⟨⟨hsum, -⟩, ⟨d, h1, hd, -⟩, ⟨t, h2, ht, -⟩⟩ :=
    c13_Copy_Sum_total limitA unitB commonA statA heapS (by decide)
  exact ⟨by decide, hsum, ⟨d, h1, hd⟩, ⟨t, h2, ht⟩⟩

/-- C14: the invariant `CachesAvailable ≤ CachesConfigured` holds for the
snapshot `NewStat()` returns; if it holds for a common aggregate `c` it holds
for `c.Copy()`; and if it holds for the common aggregate of a snapshot `s` it
holds for that of `s.Copy()` and for `s.Common()`. -/
theorem c14_invariant_preserved (c : StatCommon) (s : Stat) (h : Heap)
    (hs : s.allocated h = true) (hc : c.availableWithinConfigured)
    (hsc : s.CommonStats.availableWithinConfigured) :
    (NewStat h).1.CommonStats.availableWithinConfigured ∧
    (∃ d h1, c.Copy h = some (d, h1) ∧ d.availableWithinConfigured) ∧
    (∃ t h1, s.Copy h = some (t, h1) ∧ t.CommonStats.availableWithinConfigured) ∧
    s.Common.availableWithinConfigured := by
  refine ⟨le_refl (0 : Int), ?_, ?_, hsc⟩
  · obtain ⟨r, hr, -⟩ := statCommon_Copy_spec c h
    exact ⟨c, _, hr, hc⟩
  · obtain ⟨t, h1, hcopy, -, -, -, hcs, -⟩ := stat_Copy_reads s h hs
    exact ⟨t, h1, hcopy, by rw [hcs]; exact hsc⟩

/-- C14, at a common aggregate with 2 caches available of 3 configured and a
snapshot that carries it. -/
theorem c14_invariant_preserved_witness :
    commonB.availableWithinConfigured ∧
    (∃ d h1, commonB.Copy heapS = some (d, h1) ∧ d.availableWithinConfigured) ∧
    (∃ t h1, ({ statA with CommonStats := commonB } : Stat).Copy heapS = some (t, h1) ∧
      t.CommonStats.availableWithinConfigured) := by
  obtain ⟨-, hd, ht, -⟩ := c14_invariant_preserved commonB
    ({ statA with CommonStats := commonB } : Stat) heapS (by decide) (by decide) (by decide)
  exact ⟨by decide, hd, ht⟩

/-- C16: for a snapshot `s` that lives in the heap, `t := s.Copy()` has its own
cache-group and cache-type maps. Inserting or overwriting an entry in
`t.CacheGroups` or `t.Types` succeeds and, like deleting one, leaves
`s.CacheGroup(id)` and `s.Type(id)` as they were, for every `id`; inserting,
overwriting or deleting an entry in `s.CacheGroups` or `s.Types` leaves
`t.CacheGroup(id)` and `t.Type(id)` as they were; the call itself leaves the
lookups through `s` as they were; and `t.Total()` is the value of
`s.Total()`, held by `t` itself. -/
theorem c16_Copy_own_group_type_maps (s : Stat) (h : Heap) (hs : s.allocated h = true) :
    ∃ t h1, s.Copy h = some (t, h1) ∧
      t.Total = s.Total ∧
      (∀ id, s.CacheGroup h1 id = s.CacheGroup h id ∧ s.Type' h1 id = s.Type' h id) ∧
      (∀ k v, ∃ h2, h1.setCacheGroup t.CacheGroups k v = some h2 ∧
        (∀ id, s.CacheGroup h2 id = s.CacheGroup h1 id) ∧
        (∀ id, s.Type' h2 id = s.Type' h1 id)) ∧
      (∀ k v, ∃ h2, h1.setType t.Types k v = some h2 ∧
        (∀ id, s.CacheGroup h2 id = s.CacheGroup h1 id) ∧
        (∀ id, s.Type' h2 id = s.Type' h1 id)) ∧
      (∀ k id, s.CacheGroup (h1.deleteCacheGroup t.CacheGroups k) id = s.CacheGroup h1 id ∧
        s.Type' (h1.deleteCacheGroup t.CacheGroups k) id = s.Type' h1 id) ∧
      (∀ k id, s.CacheGroup (h1.deleteType t.Types k) id = s.CacheGroup h1 id ∧
        s.Type' (h1.deleteType t.Types k) id = s.Type' h1 id) ∧
      (∀ k v h2, h1.setCacheGroup s.CacheGroups k v = some h2 →
        (∀ id, t.CacheGroup h2 id = t.CacheGroup h1 id) ∧
        (∀ id, t.Type' h2 id = t.Type' h1 id)) ∧
      (∀ k v h2, h1.setType s.Types k v = some h2 →
        (∀ id, t.CacheGroup h2 id = t.CacheGroup h1 id) ∧
        (∀ id, t.Type' h2 id = t.Type' h1 id)) ∧
      (∀ k id, t.CacheGroup (h1.deleteCacheGroup s.CacheGroups k) id = t.CacheGroup h1 id ∧
        t.Type' (h1.deleteCacheGroup s.CacheGroups k) id = t.Type' h1 id) ∧
      (∀ k id, t.CacheGroup (h1.deleteType s.Types k) id = t.CacheGroup h1 id ∧
        t.Type' (h1.deleteType s.Types k) id = t.Type' h1 id) := by
  obtain ⟨t, h1, hc, -, hg, hty, -, hts, -, -, hu, -⟩ := stat_Copy_reads s h hs
  have hself := hu s hs
  simp only [Stat.allocated, Bool.and_eq_true] at hs
  have hsg : s.CacheGroups ≠ t.CacheGroups := by
    rw [hg]; exact mapRef_allocated_ne hs.1.2 (le_refl _)
  have hst : s.Types ≠ t.Types := by
    rw [hty]; exact mapRef_allocated_ne hs.2 (Nat.le_succ _)
  refine ⟨t, h1, hc, by simp only [Stat.Total, hts], fun id => ⟨hself.1 id, hself.2 id⟩,
    ?_, ?_, ?_, ?_, ?_, ?_, ?_, ?_⟩
  · intro k v
    rw [hg]
    refine ⟨_, rfl, fun id => ?_, fun id => rfl⟩
    exact Store.get_congr (by rw [Store.contents_set_ne (Store.set_some _ _ k v) (hg ▸ hsg)])
  · intro k v
    rw [hty]
    refine ⟨_, rfl, fun id => rfl, fun id => ?_⟩
    exact Store.get_congr (by rw [Store.contents_set_ne (Store.set_some _ _ k v) (hty ▸ hst)])
  · intro k id
    exact ⟨Store.get_congr (by
      rw [show (h1.deleteCacheGroup t.CacheGroups k).cacheGroups
        = h1.cacheGroups.delete t.CacheGroups k from rfl, Store.contents_delete_ne _ k hsg]), rfl⟩
  · intro k id
    exact ⟨rfl, Store.get_congr (by
      rw [show (h1.deleteType t.Types k).types = h1.types.delete t.Types k from rfl,
        Store.contents_delete_ne _ k hst])⟩
  · intro k v h2 hset
    unfold Heap.setCacheGroup at hset
    cases hst1 : h1.cacheGroups.set s.CacheGroups k v with
    | none => simp [hst1] at hset
    | some g =>
      simp only [hst1, Option.some.injEq] at hset
      subst hset
      exact ⟨fun id => Store.get_congr (by rw [Store.contents_set_ne hst1 hsg.symm]),
        fun id => rfl⟩
  · intro k v h2 hset
    unfold Heap.setType at hset
    cases hst1 : h1.types.set s.Types k v with
    | none => simp [hst1] at hset
    | some g =>
      simp only [hst1, Option.some.injEq] at hset
      subst hset
      exact ⟨fun id => rfl,
        fun id => Store.get_congr (by rw [Store.contents_set_ne hst1 hst.symm])⟩
  · intro k id
    exact ⟨Store.get_congr (by
      rw [show (h1.deleteCacheGroup s.CacheGroups k).cacheGroups
        = h1.cacheGroups.delete s.CacheGroups k from rfl,
        Store.contents_delete_ne _ k hsg.symm]), rfl⟩
  · intro k id
    exact ⟨rfl, Store.get_congr (by
      rw [show (h1.deleteType s.Types k).types = h1.types.delete s.Types k from rfl,
        Store.contents_delete_ne _ k hst.symm])⟩

/-- C16, at a snapshot with one cache group and a nil cache-type map: after
`t := s.Copy()`, an assignment to `t.CacheGroups["g"]` succeeds and
`s.CacheGroup("g")` still returns the entry `s` had. -/
theorem c16_Copy_own_group_type_maps_witness :
    statA.allocated heapS = true ∧
    ∃ t h1, statA.Copy heapS = some (t, h1) ∧
      ∃ h2, h1.setCacheGroup t.CacheGroups "g" {} = some h2 ∧
        statA.CacheGroup h2 "g" = (scenarioA, true) := by
  refine ⟨by decide, ?_⟩
  obtain ⟨t, h1, hc, -, hself, hset, -⟩ := c16_Copy_own_group_type_maps statA heapS (by decide)
  obtain ⟨h2, hs2, hg2, -⟩ := hset "g" {}
  refine ⟨t, h1, hc, h2, hs2, ?_⟩
  rw [hg2 "g", (hself "g").1]
  decide

/-! ## Availability and timestamps under `Sum` -/

theorem foldl_Sum_isAvailable (xs : List StatCacheStats) :
    ∀ z : StatCacheStats, (xs.foldl StatCacheStats.Sum z).IsAvailable.Value
      = (z.IsAvailable.Value || xs.any (fun x => x.IsAvailable.Value)) := by
  induction xs with
  | nil => intro z; simp
  | cons x xs ih =>
    intro z
    simp only [List.foldl_cons, ih, List.any_cons, StatCacheStats.Sum, Bool.or_assoc]

/-- C17: a bucket is available if and only if some contributor is. The
`IsAvailable` value of the fold of `Sum` over `xs`, from the all-default
aggregate, is true exactly when some element of `xs` has `IsAvailable` true;
for the empty list it is false. -/
theorem c17_available_iff_any (xs : List StatCacheStats) :
    ((xs.foldl StatCacheStats.Sum {}).IsAvailable.Value = true
      ↔ ∃ x ∈ xs, x.IsAvailable.Value = true) ∧
    (([] : List StatCacheStats).foldl StatCacheStats.Sum {}).IsAvailable.Value = false := by
  refine ⟨?_, rfl⟩
  rw [foldl_Sum_isAvailable]
  simp [List.any_eq_true]

theorem Sum_times (a b : StatCacheStats) : (a.Sum b).times = List.replicate 14 0 := rfl

/-- C18: `Sum` discards timestamps. Every `Time` field of `Sum(a, b)` is 0,
whatever the `Time` fields of `a` and `b`; so `Sum(a, zero)` is not `a` for
any `a` that carries a non-zero timestamp, while it has the integer counters,
the flag and the error text of `a`, and the rates of `a` unless one of them is
negative zero; `stampedA` is such an `a`, which `Sum(a, zero)` differs from as
a whole and agrees with on every value. -/
theorem c18_Sum_discards_timestamps (a b : StatCacheStats) :
    (a.Sum b).times = [0, 0, 0, 0, 0, 0, 0, 0, 0, 0, 0, 0, 0, 0] ∧
    ((∃ t ∈ a.times, t ≠ 0) → a.Sum {} ≠ a) ∧
    ((a.Sum {}).counters = a.counters ∧
      (a.Sum {}).IsAvailable.Value = a.IsAvailable.Value ∧
      (a.Sum {}).ErrorString.Value = a.ErrorString.Value ∧
      (a.InBytes.Value ≠ F64.negZero → a.Kbps.Value ≠ F64.negZero →
        (a.Sum {}).rates = a.rates)) ∧
    ((∃ t ∈ stampedA.times, t ≠ 0) ∧ stampedA.Sum {} ≠ stampedA ∧
      (stampedA.Sum {}).counters = stampedA.counters ∧
      (stampedA.Sum {}).rates = stampedA.rates ∧
      (stampedA.Sum {}).IsAvailable.Value = stampedA.IsAvailable.Value ∧
      (stampedA.Sum {}).ErrorString.Value = stampedA.ErrorString.Value) := by
  refine ⟨rfl, ?_, ⟨?_, ?_, ?_, ?_⟩, ?_⟩
  · rintro ⟨t, ht, hne⟩ heq
    rw [← heq, Sum_times] at ht
    exact hne (List.eq_of_mem_replicate ht)
  · simp only [counters, StatCacheStats.Sum, i64_add_zero]
  · simp only [StatCacheStats.Sum, Bool.or_false]
  · simp only [StatCacheStats.Sum]
    exact String.append_empty _
  · intro h1 h2
    simp only [rates, StatCacheStats.Sum]
    rw [f64_add_zero _ h1, f64_add_zero _ h2]
  · decide

/-- C18, at the aggregate `stampedA`, whose `Status2xx` carries the time
1700000000. -/
theorem c18_Sum_discards_timestamps_witness :
    (∃ t ∈ stampedA.times, t ≠ 0) ∧ stampedA.Sum {} ≠ stampedA ∧
    (stampedA.Sum scenarioB).times = [0, 0, 0, 0, 0, 0, 0, 0, 0, 0, 0, 0, 0, 0] ∧
    (stampedA.Sum {}).rates = stampedA.rates :=
  ⟨by decide,
   (c18_Sum_discards_timestamps stampedA scenarioB).2.1 (by decide),
   (c18_Sum_discards_timestamps stampedA scenarioB).1,
   (c18_Sum_discards_timestamps stampedA scenarioB).2.2.1.2.2.2 (by decide) (by decide)⟩

/-! ## The legacy flattening -/

theorem foldl_insert_if_keys {V A : Type} (p : A → Bool) (key : A → String) (val : A → V)
    (l : List A) : ∀ (m : GoMap V) (k : String),
      k ∈ (l.foldl (fun out x => if p x then out.insert (key x) (val x) else out) m).keys →
        k ∈ m.keys ∨ ∃ x ∈ l, p x = true ∧ key x = k := by
  induction l with
  | nil => intro m k hk; exact Or.inl hk
  | cons x l ih =>
    intro m k hk
    simp only [List.foldl_cons] at hk
    rcases ih _ k hk with h1 | ⟨y, hy, hpy, hky⟩
    · by_cases hp : p x = true
      · simp only [hp, if_true] at h1
        rcases (AList.mem_insert _).1 (AList.mem_keys.2 h1) with h2 | h2
        · exact Or.inr ⟨x, List.mem_cons_self _ _, hp, h2.symm⟩
        · exact Or.inl (AList.mem_keys.1 h2)
      · simp only [hp] at h1
        exact Or.inl h1
    · exact Or.inr ⟨y, List.mem_cons_of_mem _ hy, hpy, hky⟩

theorem foldl_insert_if_lookup {V A : Type} (p : A → Bool) (key : A → String) (val : A → V)
    (l : List A) : ∀ (m : GoMap V) (k : String) (v : V),
      (l.foldl (fun out x => if p x then out.insert (key x) (val x) else out) m).lookup k = some v →
        m.lookup k = some v ∨ ∃ x ∈ l, p x = true ∧ key x = k ∧ val x = v := by
  induction l with
  | nil => intro m k v hk; exact Or.inl hk
  | cons x l ih =>
    intro m k v hk
    simp only [List.foldl_cons] at hk
    rcases ih _ k v hk with h1 | ⟨y, hy, hpy, hky, hvy⟩
    · by_cases hp : p x = true
      · simp only [hp, if_true] at h1
        by_cases hkx : k = key x
        · subst hkx
          rw [AList.lookup_insert] at h1
          exact Or.inr ⟨x, List.mem_cons_self _ _, hp, rfl, Option.some.inj h1⟩
        · rw [AList.lookup_insert_ne hkx] at h1
          exact Or.inl h1
      · simp only [hp] at h1
        exact Or.inl h1
    · exact Or.inr ⟨y, List.mem_cons_of_mem _ hy, hpy, hky, hvy⟩

theorem flattenStats_keys (filter : Filter) (named : List (StatName × List StatOld))
    (name : String) (hn : name ∈ (flattenStats filter named).keys) :
    filter.UseStat name = true := by
  rcases foldl_insert_if_keys
    (fun st : StatName × List StatOld => filter.UseStat st.1) Prod.fst
    (fun st => withinHistory filter st.2) named ∅ name hn with h | ⟨x, -, hp, hk⟩
  · exact absurd h (by simp)
  · rw [← hk]; exact hp

/-- C15: filter exclusion in the flattening. For every snapshot set and filter,
the flattened output has an entry for a delivery service only if
`UseDeliveryService` accepts it, and under a delivery service an entry for a
stat name only if `UseStat` accepts it; so with `UseStat("errors")` false no
delivery service of the output has an `"errors"` entry. With the stats
`"kbps"` and `"errors"` and the filter that rejects only `"errors"`, the
output has the `"kbps"` entry and no `"errors"` entry. -/
theorem c15_filter_exclusion
    (stats : List (enum.DeliveryServiceName × List (StatName × List StatOld)))
    (filter : Filter) (ds : enum.DeliveryServiceName) (name : String) :
    (ds ∈ (StatsJSON stats filter).DeliveryService.keys →
      filter.UseDeliveryService ds = true) ∧
    (∀ m, (StatsJSON stats filter).DeliveryService.lookup ds = some m → name ∈ m.keys →
      filter.UseStat name = true) ∧
    (filter.UseStat "errors" = false →
      ∀ m, (StatsJSON stats filter).DeliveryService.lookup ds = some m → "errors" ∉ m.keys) ∧
    ((StatsJSON kbpsAndErrors noErrors).DeliveryService.keys = ["ds1"] ∧
      ((StatsJSON kbpsAndErrors noErrors).DeliveryService.lookup "ds1").map AList.keys
        = some ["kbps"]) := by
  have hstat : ∀ (n : String) m, (StatsJSON stats filter).DeliveryService.lookup ds = some m →
      n ∈ m.keys → filter.UseStat n = true := by
    intro n m hm hn
    rcases foldl_insert_if_lookup
      (fun e : enum.DeliveryServiceName × List (StatName × List StatOld) =>
        filter.UseDeliveryService e.1) Prod.fst
      (fun e => flattenStats filter e.2) stats ∅ ds m hm with h | ⟨x, -, -, -, hv⟩
    · exact absurd h (by simp)
    · rw [← hv] at hn
      exact flattenStats_keys filter x.2 n hn
  refine ⟨?_, hstat name, ?_, by decide⟩
  · intro hds
    rcases foldl_insert_if_keys
      (fun e : enum.DeliveryServiceName × List (StatName × List StatOld) =>
        filter.UseDeliveryService e.1) Prod.fst
      (fun e => flattenStats filter e.2) stats ∅ ds hds with h | ⟨x, -, hp, hk⟩
    · exact absurd h (by simp)
    · rw [← hk]; exact hp
  · intro hf m hm hmem
    have := hstat "errors" m hm hmem
    rw [hf] at this
    exact Bool.noConfusion this

/-- C15, at the snapshot set with the stats `"kbps"` and `"errors"` and the
filter that rejects `"errors"`: the output holds no `"errors"` entry. -/
theorem c15_filter_exclusion_witness :
    noErrors.UseStat "errors" = false ∧
    ∀ m, (StatsJSON kbpsAndErrors noErrors).DeliveryService.lookup "ds1" = some m →
      "errors" ∉ m.keys :=
  ⟨by decide, (c15_filter_exclusion kbpsAndErrors noErrors "ds1" "errors").2.2.1 (by decide)⟩

end deliveryservicedata

namespace api

/-- C19: `handleDivision` dispatches on the exact method string. `"GET"` goes to
`getDivision` with the id, `"POST"` to `postDivision` with the payload,
`"PUT"` to `putDivision` with id and payload, `"DELETE"` to `delDivision`
with the id; for every other method string, `"get"` among them, the result
and the error are nil and the store is left as it was, whatever the handlers
are: none is invoked. -/
theorem c19_handleDivision_dispatch {W R E : Type} (hs hs1 : Handlers W R E) (method : String)
    (id : Int) (payload : Bytes) (w : W) :
    handleDivision hs "GET" id payload w = hs.getDivision id w ∧
    handleDivision hs "POST" id payload w = hs.postDivision payload w ∧
    handleDivision hs "PUT" id payload w = hs.putDivision id payload w ∧
    handleDivision hs "DELETE" id payload w = hs.delDivision id w ∧
    handleDivision hs "get" id payload w = Outcome.ret none none w ∧
    (method ≠ "GET" → method ≠ "POST" → method ≠ "PUT" → method ≠ "DELETE" →
      handleDivision hs method id payload w = Outcome.ret none none w ∧
      handleDivision hs1 method id payload w = handleDivision hs method id payload w) := by
  refine ⟨rfl, rfl, rfl, rfl, rfl, ?_⟩
  intro h1 h2 h3 h4
  simp only [handleDivision, h1, h2, h3, h4, if_false, and_self]

/-- C19, with handlers that record their calls: `"GET"` with id 7 records the
one call `getDivision(7)`, while `"Delete"` returns nil and nil and records
no call. -/
theorem c19_handleDivision_dispatch_witness :
    handleDivision recording "GET" 7 [] [] = Outcome.ret (some ()) none [Call.get 7] ∧
    handleDivision recording "Delete" 7 [] [] = Outcome.ret none none [] :=
  ⟨(c19_handleDivision_dispatch recording recording "Delete" 7 [] []).1.trans rfl,
   ((c19_handleDivision_dispatch recording recording "Delete" 7 [] []).2.2.2.2.2
      (by decide) (by decide) (by decide) (by decide)).1⟩

end api
